import Mathlib

/-!
# Heart-disease risk scorer: a shallow embedding of `script.js`

The development embeds the two-path scoring engine of `src/script.js`:

* `computeModelStats` (lines 83-113), the dataset statistics builder;
* `riskScore` (lines 129-185), the distance classifier, and
  `fallbackRiskScore` (lines 188-210), the fixed-weight logistic heuristic;
* `scoreTier` (lines 267-271), the three-tier classification of a score.

## Modelling conventions

Two readings of the arithmetic of `riskScore` are embedded.

* The exact reading (`sumSquares`, `distToPresence`, `distToAbsence`,
  `riskScore`, `fallbackRiskScore`): a JavaScript number is `Option ℚ`
  (`JSNum`), `none` is NaN and `some q` a finite value, and arithmetic on finite
  values is exact. `Math.sqrt` and `Math.exp` are `Real.sqrt` and `Real.exp`,
  so a score is an `Option ℝ`. This reading says which expression is
  computed; it is used for the statistics builder, for the identity of the
  distance expression and for the fallback path. Rounding, overflow and
  underflow have no image in it.
* The binary64 reading (`F64`, `round64`, `sumSquares64`, `distToPresence64`,
  `distToAbsence64`, `totalDist64`, `riskScore64`): the primary path of
  `riskScore` evaluated operation by operation in IEEE 754 double precision.
  Every result is rounded to nearest with ties to even, overflows to an
  infinity, and underflows through the subnormal numbers to zero. It is used
  wherever rounding, overflow or underflow decide a statement. The two zeros
  are identified (the code divides by no zero and `===` does not tell them
  apart); `Math.pow(d, 2)` is the correctly rounded square and `Math.sqrt` the
  correctly rounded square root.
* Every finite double is a rational, so the inputs lose nothing by being
  rationals. NaN is absorbing for every operation the code applies
  (`+ - * /`, `Math.pow`, `Math.sqrt`, `Math.min`, `Math.max`, `Math.exp`);
  `NaN === 0` and `NaN >= c` are false.
* The global `modelStats` (line 6) is an explicit argument of `riskScore`:
  `none` for `null`, `some ms` once the dataset has been loaded.
-/

namespace HeartDisease

/-- A JavaScript number: `none` stands for NaN, `some q` for the finite value `q`. -/
abbrev JSNum := Option ℚ

/-- One parsed row of the reference table. The columns are the ones
`computeModelStats` reads: `Age`, `BP`, `Cholesterol`, `Max HR`,
`Chest pain type`, `Sex`, `FBS over 120`, `Exercise angina` (finite numbers,
as the parser yields for numeric cells) and `Heart Disease`, here already
passed through `String(...)`. -/
structure ReferenceRow where
  Age : ℚ
  BP : ℚ
  Cholesterol : ℚ
  MaxHR : ℚ
  ChestPainType : ℚ
  Sex : ℚ
  FBSOver120 : ℚ
  ExerciseAngina : ℚ
  HeartDisease : String
deriving DecidableEq

/-- The shape of the objects `presenceAvg` and `absenceAvg` (lines 90-110):
eight numbers, each possibly NaN. The eight locals `age, sex, cp, bp, chol,
fbs, maxHR, exang` of `riskScore` are packed in the same shape (`encode`). -/
structure GroupProfile where
  age : JSNum
  bp : JSNum
  chol : JSNum
  maxHR : JSNum
  cp : JSNum
  sex : JSNum
  fbs : JSNum
  exang : JSNum
deriving DecidableEq

/-- The object returned by `computeModelStats` (line 112). -/
structure ModelStats where
  presenceAvg : GroupProfile
  absenceAvg : GroupProfile
  total : Nat
deriving DecidableEq

/-- The object returned by `readForm` (line 124): four numbers (`Number(...)`
of a form value, possibly NaN) and four strings. -/
structure PatientRecord where
  age : JSNum
  sex : String
  cp : String
  trestbps : JSNum
  chol : JSNum
  fbs : String
  thalach : JSNum
  exang : String
deriving DecidableEq

/-! ## Dataset statistics builder -/

/-- The method `toLowerCase()` as far as lines 84-85 need it: the characters of
the string with the ASCII letters lowered. JavaScript also lowers letters
outside ASCII, but no such letter lowers to one of the ASCII letters of
"presence" or "absence", so the two tests below are not affected. -/
def toLowerCase (s : String) : List Char := s.toList.map Char.toLower

/-- The method `includes(pat)`: `pat` occurs as a contiguous block. -/
def includes (s : List Char) (pat : String) : Bool := decide (pat.toList <:+: s)

/-- The filter predicate of line 84. -/
def isPresence (r : ReferenceRow) : Bool := includes (toLowerCase r.HeartDisease) "presence"

/-- The filter predicate of line 85. -/
def isAbsence (r : ReferenceRow) : Bool := includes (toLowerCase r.HeartDisease) "absence"

/-- Line 87: `arr.reduce((a,b)=>a+b,0) / arr.length`. On an empty array this is
`0 / 0`, which is NaN; otherwise the divisor is a positive integer. -/
def avg (arr : List ℚ) : JSNum :=
  if arr.length = 0 then none
  else some (arr.foldl (fun a b => a + b) 0 / (arr.length : ℚ))

/-- Lines 83-113. -/
def computeModelStats (rows : List ReferenceRow) : ModelStats :=
  let presence := rows.filter isPresence
  let absence := rows.filter isAbsence
  let presenceAvg : GroupProfile :=
    { age := avg (presence.map fun r => r.Age)
      bp := avg (presence.map fun r => r.BP)
      chol := avg (presence.map fun r => r.Cholesterol)
      maxHR := avg (presence.map fun r => r.MaxHR)
      cp := avg (presence.map fun r => r.ChestPainType)
      sex := avg (presence.map fun r => r.Sex)
      fbs := avg (presence.map fun r => r.FBSOver120)
      exang := avg (presence.map fun r => r.ExerciseAngina) }
  let absenceAvg : GroupProfile :=
    { age := avg (absence.map fun r => r.Age)
      bp := avg (absence.map fun r => r.BP)
      chol := avg (absence.map fun r => r.Cholesterol)
      maxHR := avg (absence.map fun r => r.MaxHR)
      cp := avg (absence.map fun r => r.ChestPainType)
      sex := avg (absence.map fun r => r.Sex)
      fbs := avg (absence.map fun r => r.FBSOver120)
      exang := avg (absence.map fun r => r.ExerciseAngina) }
  { presenceAvg := presenceAvg, absenceAvg := absenceAvg, total := rows.length }

/-! ## Risk scorer, primary path -/

/-- The `switch` of lines 140-146: `cp` starts at 1 and an unlisted tag leaves it there. -/
def cpCode (cp : String) : ℚ :=
  if cp = "typical" then 1
  else if cp = "atypical" then 2
  else if cp = "non-anginal" then 3
  else if cp = "asymptomatic" then 4
  else 1

/-- Lines 136-152: the eight locals of `riskScore`, in the shape of a profile. -/
def encode (x : PatientRecord) : GroupProfile :=
  { age := x.age
    sex := some (if x.sex = "male" then 1 else 0)
    cp := some (cpCode x.cp)
    bp := x.trestbps
    chol := x.chol
    fbs := some (if x.fbs = "yes" then 1 else 0)
    maxHR := x.thalach
    exang := some (if x.exang = "yes" then 1 else 0) }

/-- The argument of `Math.sqrt` in lines 155-164 and again in lines 166-175,
for the locals `v` and the profile `p`, in the exact reading: the written sum
when all sixteen operands are finite, NaN as soon as one of them is NaN. The
value a double-precision run produces is `sumSquares64`. -/
def sumSquares (v p : GroupProfile) : JSNum :=
  match v, p with
  | ⟨some age, some bp, some chol, some maxHR, some cp, some sex, some fbs, some exang⟩,
    ⟨some pAge, some pBp, some pChol, some pMaxHR, some pCp, some pSex, some pFbs, some pExang⟩ =>
    some ((age - pAge) ^ 2 +
      (sex - pSex) ^ 2 * 10 +
      (cp - pCp) ^ 2 * 15 +
      (bp - pBp) ^ 2 / 100 +
      (chol - pChol) ^ 2 / 1000 +
      (fbs - pFbs) ^ 2 * 8 +
      (maxHR - pMaxHR) ^ 2 / 50 +
      (exang - pExang) ^ 2 * 12)
  | _, _ => none

/-- The function `Math.sqrt` on a number: NaN for NaN and for a negative argument. -/
noncomputable def jsSqrt (a : JSNum) : Option ℝ :=
  a.bind fun q => if q < 0 then none else some (Real.sqrt (q : ℝ))

/-- Lines 155-164: `distToPresence`. -/
noncomputable def distToPresence (x : PatientRecord) (modelStats : ModelStats) : Option ℝ :=
  jsSqrt (sumSquares (encode x) modelStats.presenceAvg)

/-- Lines 166-175: `distToAbsence`. -/
noncomputable def distToAbsence (x : PatientRecord) (modelStats : ModelStats) : Option ℝ :=
  jsSqrt (sumSquares (encode x) modelStats.absenceAvg)

/-! ## Risk scorer, fallback path -/

/-- Line 189: `Math.min(1, Math.max(0, (v - min) / (max - min)))`. It is only
called with `min < max`. -/
def norm (v : JSNum) (min max : ℚ) : JSNum :=
  v.map fun v => Min.min 1 (Max.max 0 ((v - min) / (max - min)))

/-- The `switch` of lines 192-199. -/
def cpScore (cp : String) : ℚ :=
  if cp = "asymptomatic" then 1
  else if cp = "non-anginal" then 0.7
  else if cp = "atypical" then 0.4
  else 0.2

/-- Lines 190-207: the weighted sum `z`, NaN when one of the four numbers is. -/
def fallbackZ (x : PatientRecord) : JSNum :=
  match norm x.age 20 80, norm x.trestbps 90 200, norm x.chol 120 400, norm x.thalach 90 210 with
  | some ageN, some bpN, some cholN, some thalachNorm =>
    let male : ℚ := if x.sex = "male" then 1 else 0
    let cpScore : ℚ := cpScore x.cp
    let fbs1 : ℚ := if x.fbs = "yes" then 1 else 0
    let thalachN : ℚ := 1 - thalachNorm
    let exang1 : ℚ := if x.exang = "yes" then 1 else 0
    some (-0.15 + 0.12 * ageN + 0.08 * male + 0.20 * cpScore + 0.12 * bpN + 0.12 * cholN
      + 0.10 * fbs1 + 0.14 * thalachN + 0.12 * exang1)
  | _, _, _, _ => none

/-- Line 208: `1 / (1 + Math.exp(-6*(t-0.5)))`. -/
noncomputable def sigmoid (t : ℚ) : ℝ := 1 / (1 + Real.exp (-6 * ((t : ℝ) - 0.5)))

/-- Lines 188-210. -/
noncomputable def fallbackRiskScore (x : PatientRecord) : Option ℝ :=
  (fallbackZ x).map fun z => Min.min 1 (Max.max 0 (sigmoid z))

/-- Lines 129-185 in the exact reading, with the global `modelStats` as an
argument. A NaN distance fails the test `totalDist === 0` and makes the
quotient NaN. The value a double-precision run of the primary path produces is
`riskScore64`. -/
noncomputable def riskScore (x : PatientRecord) (modelStats : Option ModelStats) : Option ℝ :=
  match modelStats with
  | none => fallbackRiskScore x
  | some ms =>
    match distToPresence x ms, distToAbsence x ms with
    | some distToPresence, some distToAbsence =>
      let totalDist := distToPresence + distToAbsence
      if totalDist = 0 then some 0.5
      else some (distToAbsence / totalDist)
    | _, _ => none

/-- Lines 267-271. A NaN score fails both comparisons. -/
noncomputable def scoreTier (score : Option ℝ) : String :=
  match score with
  | none => "low"
  | some s => if s ≥ 0.66 then "high" else if s ≥ 0.33 then "mid" else "low"

/-! ## Risk scorer, primary path in binary64 arithmetic -/

/-- A double: NaN, an infinity with its sign, or a finite value. The two zeros
are identified. -/
inductive F64 where
  | nan
  | inf (neg : Bool)
  | fin (q : ℚ)
deriving DecidableEq

/-- Rounding to the nearest integer, a tie going to the even one. -/
def roundHalfEven {α : Type} [LinearOrderedField α] [FloorRing α] (t : α) : ℤ :=
  if t - (⌊t⌋ : α) < 1 / 2 then ⌊t⌋
  else if 1 / 2 < t - (⌊t⌋ : α) then ⌊t⌋ + 1
  else if ⌊t⌋ % 2 = 0 then ⌊t⌋
  else ⌊t⌋ + 1

/-- The exponent of the binade of `x`: the integer part of its binary
logarithm, and `-1022` throughout the subnormal range. -/
def binadeExp {α : Type} [LinearOrderedField α] [FloorRing α] (x : α) : ℤ :=
  max (Int.log 2 |x|) (-1022)

/-- Rounding of `x` to 53 significant bits (fewer in the subnormal range),
to nearest and ties to even, with no bound on the exponent from above. -/
def roundFin {α : Type} [LinearOrderedField α] [FloorRing α] (x : α) : ℚ :=
  (roundHalfEven (x / (2 : α) ^ (binadeExp x - 52)) : ℚ) * (2 : ℚ) ^ (binadeExp x - 52)

/-- The double that IEEE 754 assigns to the exact result `x` of an operation:
the rounded value, or the infinity of its sign when the rounded value reaches
`2 ^ 1024`. -/
def round64 {α : Type} [LinearOrderedField α] [FloorRing α] (x : α) : F64 :=
  if (2 : ℚ) ^ (1024 : ℕ) ≤ |roundFin x| then F64.inf (decide (roundFin x < 0))
  else F64.fin (roundFin x)

/-- The rational is an integer of magnitude below `2 ^ 53` times a power of two
not below the least subnormal: the finite binary64 values, with no bound on the
exponent from above. -/
def Representable (q : ℚ) : Prop :=
  ∃ m k : ℤ, |m| < 2 ^ (53 : ℕ) ∧ -1074 ≤ k ∧ q = (m : ℚ) * (2 : ℚ) ^ k

/-- The double held by a number of the exact reading. -/
def ofJSNum (a : JSNum) : F64 :=
  match a with
  | none => F64.nan
  | some q => F64.fin q

/-- The operator `-` on doubles. -/
def F64.sub : F64 → F64 → F64
  | .nan, _ => .nan
  | _, .nan => .nan
  | .inf s, .inf t => if s = t then .nan else .inf s
  | .inf s, .fin _ => .inf s
  | .fin _, .inf t => .inf (!t)
  | .fin a, .fin b => round64 (a - b)

/-- The operator `+` on doubles. -/
def F64.add : F64 → F64 → F64
  | .nan, _ => .nan
  | _, .nan => .nan
  | .inf s, .inf t => if s = t then .inf s else .nan
  | .inf s, .fin _ => .inf s
  | .fin _, .inf t => .inf t
  | .fin a, .fin b => round64 (a + b)

/-- The operator `*` on doubles. -/
def F64.mul : F64 → F64 → F64
  | .nan, _ => .nan
  | _, .nan => .nan
  | .inf s, .inf t => .inf (s != t)
  | .inf s, .fin b => if b = 0 then .nan else .inf (s != decide (b < 0))
  | .fin a, .inf t => if a = 0 then .nan else .inf (decide (a < 0) != t)
  | .fin a, .fin b => round64 (a * b)

/-- The operator `/` on doubles. A zero divisor is taken as the positive zero;
`riskScore` divides by the constants 100, 1000, 50 and by a `totalDist` that
is not zero. -/
def F64.div : F64 → F64 → F64
  | .nan, _ => .nan
  | _, .nan => .nan
  | .inf _, .inf _ => .nan
  | .inf s, .fin b => .inf (s != decide (b < 0))
  | .fin _, .inf _ => .fin 0
  | .fin a, .fin b =>
    if b = 0 then (if a = 0 then .nan else .inf (decide (a < 0)))
    else round64 (a / b)

instance : Sub F64 := ⟨F64.sub⟩

instance : Add F64 := ⟨F64.add⟩

instance : Mul F64 := ⟨F64.mul⟩

instance : Div F64 := ⟨F64.div⟩

/-- The call `Math.pow(d, 2)`: the correctly rounded square. -/
def F64.pow2 : F64 → F64
  | .nan => .nan
  | .inf _ => .inf false
  | .fin d => round64 (d * d)

/-- The call `Math.sqrt(s)`: the correctly rounded square root, NaN for a
negative argument. -/
noncomputable def F64.sqrt : F64 → F64
  | .nan => .nan
  | .inf s => if s then .nan else .inf false
  | .fin q => if q < 0 then .nan else round64 (Real.sqrt (q : ℝ))

/-- The double is not NaN and not negative. -/
def F64.Nonneg : F64 → Prop
  | .nan => False
  | .inf s => s = false
  | .fin q => 0 ≤ q

/-- The argument of `Math.sqrt` in lines 155-164 and again in lines 166-175 as
a double-precision run evaluates it: each difference, square, product,
quotient and left-to-right sum is rounded. -/
def sumSquares64 (v p : GroupProfile) : F64 :=
  F64.pow2 (ofJSNum v.age - ofJSNum p.age) +
    F64.pow2 (ofJSNum v.sex - ofJSNum p.sex) * F64.fin 10 +
    F64.pow2 (ofJSNum v.cp - ofJSNum p.cp) * F64.fin 15 +
    F64.pow2 (ofJSNum v.bp - ofJSNum p.bp) / F64.fin 100 +
    F64.pow2 (ofJSNum v.chol - ofJSNum p.chol) / F64.fin 1000 +
    F64.pow2 (ofJSNum v.fbs - ofJSNum p.fbs) * F64.fin 8 +
    F64.pow2 (ofJSNum v.maxHR - ofJSNum p.maxHR) / F64.fin 50 +
    F64.pow2 (ofJSNum v.exang - ofJSNum p.exang) * F64.fin 12

/-- Lines 155-164 in double precision: `distToPresence`. -/
noncomputable def distToPresence64 (x : PatientRecord) (modelStats : ModelStats) : F64 :=
  F64.sqrt (sumSquares64 (encode x) modelStats.presenceAvg)

/-- Lines 166-175 in double precision: `distToAbsence`. -/
noncomputable def distToAbsence64 (x : PatientRecord) (modelStats : ModelStats) : F64 :=
  F64.sqrt (sumSquares64 (encode x) modelStats.absenceAvg)

/-- Line 179 in double precision: `totalDist`. -/
noncomputable def totalDist64 (x : PatientRecord) (modelStats : ModelStats) : F64 :=
  distToPresence64 x modelStats + distToAbsence64 x modelStats

/-- Lines 135-184 in double precision: the primary path of `riskScore` for the
loaded statistics `modelStats`. The test `totalDist === 0` holds for a zero
only; 0.5 is a double. -/
noncomputable def riskScore64 (x : PatientRecord) (modelStats : ModelStats) : F64 :=
  if totalDist64 x modelStats = F64.fin 0 then F64.fin 0.5
  else distToAbsence64 x modelStats / totalDist64 x modelStats

/-! ## Well-typed inputs and the concrete scenarios of the specification -/

/-- All eight fields of the profile are finite numbers (none is NaN). -/
def GroupProfile.Finite (p : GroupProfile) : Prop :=
  p.age.isSome ∧ p.bp.isSome ∧ p.chol.isSome ∧ p.maxHR.isSome ∧
    p.cp.isSome ∧ p.sex.isSome ∧ p.fbs.isSome ∧ p.exang.isSome

instance GroupProfile.decidableFinite (p : GroupProfile) : Decidable p.Finite := by
  unfold GroupProfile.Finite; infer_instance

/-- The four numeric fields of the record are finite numbers (none is NaN). -/
def PatientRecord.Numeric (x : PatientRecord) : Prop :=
  x.age.isSome ∧ x.trestbps.isSome ∧ x.chol.isSome ∧ x.thalach.isSome

instance PatientRecord.decidableNumeric (x : PatientRecord) : Decidable x.Numeric := by
  unfold PatientRecord.Numeric; infer_instance

/-- The profile whose eight fields are all NaN. -/
def nanProfile : GroupProfile :=
  { age := none, bp := none, chol := none, maxHR := none,
    cp := none, sex := none, fbs := none, exang := none }

/-- The eight feature values of one row, as a profile. -/
def rowProfile (r : ReferenceRow) : GroupProfile :=
  { age := some r.Age, bp := some r.BP, chol := some r.Cholesterol, maxHR := some r.MaxHR,
    cp := some r.ChestPainType, sex := some r.Sex, fbs := some r.FBSOver120,
    exang := some r.ExerciseAngina }

/-- First row of the two-row reference table of the specification. -/
def scenarioPresenceRow : ReferenceRow :=
  { Age := 60, Sex := 1, ChestPainType := 4, BP := 150, Cholesterol := 280, FBSOver120 := 1,
    MaxHR := 120, ExerciseAngina := 1, HeartDisease := "Presence" }

/-- Second row of the two-row reference table of the specification. -/
def scenarioAbsenceRow : ReferenceRow :=
  { Age := 40, Sex := 0, ChestPainType := 1, BP := 110, Cholesterol := 180, FBSOver120 := 0,
    MaxHR := 170, ExerciseAngina := 0, HeartDisease := "Absence" }

/-- The patient identical to the first row of the two-row table. -/
def scenarioPatient : PatientRecord :=
  { age := some 60, sex := "male", cp := "asymptomatic", trestbps := some 150, chol := some 280,
    fbs := "yes", thalach := some 120, exang := "yes" }

/-- The patient of the concrete fallback scenario. -/
def fallbackPatient : PatientRecord :=
  { age := some 50, sex := "male", cp := "asymptomatic", trestbps := some 145, chol := some 260,
    fbs := "yes", thalach := some 130, exang := "yes" }

/-- A row of the reference table whose label contains both words. -/
def bothLabelsRow : ReferenceRow :=
  { Age := 60, Sex := 1, ChestPainType := 4, BP := 150, Cholesterol := 280, FBSOver120 := 1,
    MaxHR := 120, ExerciseAngina := 1, HeartDisease := "Presence/Absence" }

/-- A row whose label contains both words and whose values differ from both
rows of the two-row table. -/
def overlapRow : ReferenceRow :=
  { Age := 50, Sex := 1, ChestPainType := 3, BP := 130, Cholesterol := 230, FBSOver120 := 0,
    MaxHR := 150, ExerciseAngina := 0, HeartDisease := "Presence/Absence" }

/-- A row whose label contains neither word. -/
def unlabelledRow : ReferenceRow :=
  { Age := 50, Sex := 1, ChestPainType := 3, BP := 130, Cholesterol := 230, FBSOver120 := 0,
    MaxHR := 150, ExerciseAngina := 0, HeartDisease := "Unknown" }

/-- The statistics of the two-row table of the specification. -/
def scenarioStats : ModelStats :=
  { presenceAvg := rowProfile scenarioPresenceRow, absenceAvg := rowProfile scenarioAbsenceRow,
    total := 2 }

/-- Statistics whose two profiles are both the first row of the specification. -/
def identicalStats : ModelStats :=
  { presenceAvg := rowProfile scenarioPresenceRow, absenceAvg := rowProfile scenarioPresenceRow,
    total := 2 }

/-- The patient of the specification with the age replaced by the double `2 ^ 600`. -/
def hugeAgePatient : PatientRecord :=
  { age := some (2 ^ 600), sex := "male", cp := "asymptomatic", trestbps := some 150,
    chol := some 280, fbs := "yes", thalach := some 120, exang := "yes" }

/-- Statistics whose presence profile is the encoded vector of `hugeAgePatient`
and whose absence profile is the second row of the specification. -/
def hugeAgeStats : ModelStats :=
  { presenceAvg := encode hugeAgePatient, absenceAvg := rowProfile scenarioAbsenceRow,
    total := 2 }

/-- The patient of the specification with the age replaced by 1. -/
def tiePatient : PatientRecord :=
  { age := some 1, sex := "male", cp := "asymptomatic", trestbps := some 150,
    chol := some 280, fbs := "yes", thalach := some 120, exang := "yes" }

/-- Statistics whose profiles are the first row of the specification with the
age replaced by the double `2 ^ (-53)` in the presence profile and by 0 in the
absence profile. -/
def tieStats : ModelStats :=
  { presenceAvg :=
      { age := some (1 / 2 ^ 53), bp := some 150, chol := some 280, maxHR := some 120,
        cp := some 4, sex := some 1, fbs := some 1, exang := some 1 }
    absenceAvg :=
      { age := some 0, bp := some 150, chol := some 280, maxHR := some 120,
        cp := some 4, sex := some 1, fbs := some 1, exang := some 1 }
    total := 2 }

/-- The patient of the specification with the age replaced by the double `2 ^ (-600)`. -/
def tinyAgePatient : PatientRecord :=
  { age := some (1 / 2 ^ 600), sex := "male", cp := "asymptomatic", trestbps := some 150,
    chol := some 280, fbs := "yes", thalach := some 120, exang := "yes" }

/-- Statistics whose profiles are the first row of the specification with the
age replaced by 0 in the presence profile and by the double `2 ^ (-601)` in the
absence profile. -/
def tinyAgeStats : ModelStats :=
  { presenceAvg :=
      { age := some 0, bp := some 150, chol := some 280, maxHR := some 120,
        cp := some 4, sex := some 1, fbs := some 1, exang := some 1 }
    absenceAvg :=
      { age := some (1 / 2 ^ 601), bp := some 150, chol := some 280, maxHR := some 120,
        cp := some 4, sex := some 1, fbs := some 1, exang := some 1 }
    total := 2 }

/-! ## Specification-side definitions

These follow the words of the specification and are compared with the
definitions above, which follow the code. -/

/-- Specification, section 4.1: the label contains `pat` case-insensitively,
that is, some contiguous block of the label is `pat` up to the case of
letters. -/
def ContainsIgnoreCase (label pat : String) : Prop :=
  ∃ block : List Char, block <:+: label.toList ∧
    block.map Char.toLower = pat.toList.map Char.toLower

instance ContainsIgnoreCase.decidable (label pat : String) :
    Decidable (ContainsIgnoreCase label pat) :=
  decidable_of_iff (pat.toList.map Char.toLower <:+: label.toList.map Char.toLower) (by
    constructor
    · rintro ⟨s, t, h⟩
      obtain ⟨l₁, l₂, hl, h₁, -⟩ := List.append_eq_map_iff.mp h
      obtain ⟨l₃, l₄, hl', -, h₄⟩ := List.append_eq_map_iff.mp h₁.symm
      exact ⟨l₄, ⟨l₃, l₂, by rw [hl, hl']⟩, h₄⟩
    · rintro ⟨block, hb, hm⟩
      exact hm ▸ hb.map Char.toLower)

/-- Specification, section 4.1: the arithmetic mean of a column, not a number on
an empty group. -/
def specMean (col : List ℚ) : JSNum :=
  match col with
  | [] => none
  | _ :: _ => some (col.sum / (col.length : ℚ))

/-- Specification, section 3: the profile of a group of rows is the mean of
each of the eight fields over the group. -/
def specProfile (group : List ReferenceRow) : GroupProfile :=
  { age := specMean (group.map fun r => r.Age)
    bp := specMean (group.map fun r => r.BP)
    chol := specMean (group.map fun r => r.Cholesterol)
    maxHR := specMean (group.map fun r => r.MaxHR)
    cp := specMean (group.map fun r => r.ChestPainType)
    sex := specMean (group.map fun r => r.Sex)
    fbs := specMean (group.map fun r => r.FBSOver120)
    exang := specMean (group.map fun r => r.ExerciseAngina) }

/-- Specification, section 4.2 step 1: the numeric code of a chest-pain tag.
Only the four listed tags have one. -/
def specChestPainCode (cp : String) : JSNum :=
  if cp = "typical" then some 1
  else if cp = "atypical" then some 2
  else if cp = "non-anginal" then some 3
  else if cp = "asymptomatic" then some 4
  else none

/-- Specification, section 4.2 step 1: the encoded patient vector, in the order
age, sex, chest pain, resting blood pressure, cholesterol, fasting sugar,
maximum heart rate, exercise angina. -/
def specEncode (x : PatientRecord) : List JSNum :=
  [x.age, some (if x.sex = "male" then 1 else 0), specChestPainCode x.cp, x.trestbps, x.chol,
    some (if x.fbs = "yes" then 1 else 0), x.thalach, some (if x.exang = "yes" then 1 else 0)]

/-- The fields of a profile in the order of `specEncode`. -/
def GroupProfile.toList (p : GroupProfile) : List JSNum :=
  [p.age, p.sex, p.cp, p.bp, p.chol, p.fbs, p.maxHR, p.exang]

/-- Specification, section 4.2 step 2: the per-field weights, in the order of
`specEncode`. -/
def specWeights : List ℚ := [1, 10, 15, 0.01, 0.001, 8, 0.02, 12]

/-- Specification, section 4.2 steps 2 and 3: the sum over the fields of
weight times squared difference; not a number when a coordinate is not. -/
def specWeightedSquares : List ℚ → List JSNum → List JSNum → JSNum
  | [], [], [] => some 0
  | w :: ws, some a :: v, some b :: p =>
    (specWeightedSquares ws v p).map fun s => w * (a - b) ^ 2 + s
  | _, _, _ => none

/-- Specification, section 4.2 step 3: the weighted Euclidean distance. -/
noncomputable def specDistance (v p : List JSNum) : Option ℝ :=
  (specWeightedSquares specWeights v p).map fun q => Real.sqrt (q : ℝ)

/-! ## Auxiliary lemmas -/

theorem GroupProfile.Finite.exists_eq {p : GroupProfile} (h : p.Finite) :
    ∃ a b c d e f g k : ℚ, p = ⟨some a, some b, some c, some d, some e, some f, some g, some k⟩ := by
  obtain ⟨a, b, c, d, e, f, g, k⟩ := p
  simp only [GroupProfile.Finite, Option.isSome_iff_exists] at h
  obtain ⟨⟨a, rfl⟩, ⟨b, rfl⟩, ⟨c, rfl⟩, ⟨d, rfl⟩, ⟨e, rfl⟩, ⟨f, rfl⟩, ⟨g, rfl⟩, ⟨k, rfl⟩⟩ := h
  exact ⟨a, b, c, d, e, f, g, k, rfl⟩

theorem encode_finite {x : PatientRecord} (h : x.Numeric) : (encode x).Finite := by
  obtain ⟨h1, h2, h3, h4⟩ := h
  simp [GroupProfile.Finite, encode, h1, h2, h3, h4]

theorem sumSquares_nonneg {v p : GroupProfile} {q : ℚ} (h : sumSquares v p = some q) : 0 ≤ q := by
  unfold sumSquares at h
  split at h
  · injection h with h
    rw [← h]
    positivity
  · cases h

theorem sumSquares_isSome {v p : GroupProfile} (hv : v.Finite) (hp : p.Finite) :
    ∃ q : ℚ, sumSquares v p = some q := by
  obtain ⟨a, b, c, d, e, f, g, k, rfl⟩ := hv.exists_eq
  obtain ⟨a', b', c', d', e', f', g', k', rfl⟩ := hp.exists_eq
  exact ⟨_, rfl⟩

theorem jsSqrt_some {q : ℚ} (h : 0 ≤ q) : jsSqrt (some q) = some (Real.sqrt (q : ℝ)) := by
  simp [jsSqrt, not_lt.mpr h]

theorem fallbackZ_isSome {x : PatientRecord} (h : x.Numeric) : ∃ z : ℚ, fallbackZ x = some z := by
  obtain ⟨age, sex, cp, bp, chol, fbs, th, ex⟩ := x
  simp only [PatientRecord.Numeric, Option.isSome_iff_exists] at h
  obtain ⟨⟨a, rfl⟩, ⟨b, rfl⟩, ⟨c, rfl⟩, ⟨d, rfl⟩⟩ := h
  exact ⟨_, rfl⟩

theorem riskScore_none_eq {x : PatientRecord} {z : ℚ} (h : fallbackZ x = some z) :
    riskScore x none = some (Min.min 1 (Max.max 0 (sigmoid z))) := by
  simp [riskScore, fallbackRiskScore, h]

theorem includes_Presence : includes (toLowerCase "Presence") "presence" = true := by decide
theorem not_includes_Presence : includes (toLowerCase "Presence") "absence" = false := by decide
theorem includes_Absence : includes (toLowerCase "Absence") "absence" = true := by decide
theorem not_includes_Absence : includes (toLowerCase "Absence") "presence" = false := by decide

theorem scenario_stats :
    computeModelStats [scenarioPresenceRow, scenarioAbsenceRow] =
      { presenceAvg := rowProfile scenarioPresenceRow,
        absenceAvg := rowProfile scenarioAbsenceRow, total := 2 } := by
  simp [computeModelStats, List.filter, isPresence, isAbsence, scenarioPresenceRow,
    scenarioAbsenceRow, includes_Presence, not_includes_Presence, includes_Absence,
    not_includes_Absence, avg, rowProfile]

/-! ## The claims -/

theorem includes_iff (label pat : String) (hpat : pat.toList.map Char.toLower = pat.toList) :
    includes (toLowerCase label) pat = true ↔ ContainsIgnoreCase label pat := by
  unfold includes toLowerCase ContainsIgnoreCase
  rw [decide_eq_true_iff, hpat]
  constructor
  · rintro ⟨s, t, h⟩
    obtain ⟨l₁, l₂, hl, h₁, -⟩ := List.append_eq_map_iff.mp h
    obtain ⟨l₃, l₄, hl', -, h₄⟩ := List.append_eq_map_iff.mp h₁.symm
    exact ⟨l₄, ⟨l₃, l₂, by rw [hl, hl']⟩, h₄⟩
  · rintro ⟨block, hb, hm⟩
    exact hm ▸ hb.map Char.toLower

theorem isPresence_iff (r : ReferenceRow) :
    isPresence r = true ↔ ContainsIgnoreCase r.HeartDisease "presence" :=
  includes_iff _ _ (by decide)

theorem isAbsence_iff (r : ReferenceRow) :
    isAbsence r = true ↔ ContainsIgnoreCase r.HeartDisease "absence" :=
  includes_iff _ _ (by decide)

theorem foldl_add_eq_sum (l : List ℚ) (a : ℚ) : l.foldl (fun a b => a + b) a = a + l.sum := by
  induction l generalizing a with
  | nil => simp
  | cons x xs ih => simp [List.foldl_cons, ih, add_assoc]

theorem avg_eq_specMean (col : List ℚ) : avg col = specMean col := by
  cases col with
  | nil => rfl
  | cons x xs => simp [avg, specMean, foldl_add_eq_sum]

theorem computeModelStats_presenceAvg (rows : List ReferenceRow) :
    (computeModelStats rows).presenceAvg = specProfile (rows.filter isPresence) := by
  simp only [computeModelStats, specProfile, avg_eq_specMean]

theorem computeModelStats_absenceAvg (rows : List ReferenceRow) :
    (computeModelStats rows).absenceAvg = specProfile (rows.filter isAbsence) := by
  simp only [computeModelStats, specProfile, avg_eq_specMean]

theorem specProfile_singleton (r : ReferenceRow) : specProfile [r] = rowProfile r := by
  simp [specProfile, specMean, rowProfile]

theorem filter_isPresence_eq (rows : List ReferenceRow) :
    rows.filter isPresence =
      rows.filter fun r => decide (ContainsIgnoreCase r.HeartDisease "presence") := by
  apply List.filter_congr
  intro r _
  by_cases h : isPresence r = true
  · simp [h, (isPresence_iff r).mp h]
  · simpa [h] using fun h' => h ((isPresence_iff r).mpr h')

theorem filter_isAbsence_eq (rows : List ReferenceRow) :
    rows.filter isAbsence =
      rows.filter fun r => decide (ContainsIgnoreCase r.HeartDisease "absence") := by
  apply List.filter_congr
  intro r _
  by_cases h : isAbsence r = true
  · simp [h, (isAbsence_iff r).mp h]
  · simpa [h] using fun h' => h ((isAbsence_iff r).mpr h')

/-- C4. For every table, each field of the presence profile is the arithmetic
mean of that column over exactly the rows whose label contains "presence"
case-insensitively, and the absence profile is the same over the rows whose
label contains "absence"; dropping the rows whose label contains neither word
changes neither profile; and when exactly one row is a presence row and
exactly one row is an absence row, the two profiles are those two rows. -/
theorem computeModelStats_profiles (rows : List ReferenceRow) :
    (computeModelStats rows).presenceAvg =
        specProfile (rows.filter fun r => decide (ContainsIgnoreCase r.HeartDisease "presence")) ∧
    (computeModelStats rows).absenceAvg =
        specProfile (rows.filter fun r => decide (ContainsIgnoreCase r.HeartDisease "absence")) ∧
    ((computeModelStats (rows.filter fun r =>
          decide (ContainsIgnoreCase r.HeartDisease "presence" ∨
            ContainsIgnoreCase r.HeartDisease "absence"))).presenceAvg =
        (computeModelStats rows).presenceAvg ∧
      (computeModelStats (rows.filter fun r =>
          decide (ContainsIgnoreCase r.HeartDisease "presence" ∨
            ContainsIgnoreCase r.HeartDisease "absence"))).absenceAvg =
        (computeModelStats rows).absenceAvg) ∧
    (∀ r₁ r₂ : ReferenceRow,
      (rows.filter fun r => decide (ContainsIgnoreCase r.HeartDisease "presence")) = [r₁] →
      (rows.filter fun r => decide (ContainsIgnoreCase r.HeartDisease "absence")) = [r₂] →
      (computeModelStats rows).presenceAvg = rowProfile r₁ ∧
        (computeModelStats rows).absenceAvg = rowProfile r₂) := by
  refine ⟨?_, ?_, ⟨?_, ?_⟩, ?_⟩
  · rw [computeModelStats_presenceAvg, filter_isPresence_eq]
  · rw [computeModelStats_absenceAvg, filter_isAbsence_eq]
  · rw [computeModelStats_presenceAvg, computeModelStats_presenceAvg, filter_isPresence_eq,
      filter_isPresence_eq, List.filter_filter]
    congr 1
    apply List.filter_congr
    intro r _
    by_cases h : ContainsIgnoreCase r.HeartDisease "presence" <;> simp [h]
  · rw [computeModelStats_absenceAvg, computeModelStats_absenceAvg, filter_isAbsence_eq,
      filter_isAbsence_eq, List.filter_filter]
    congr 1
    apply List.filter_congr
    intro r _
    by_cases h : ContainsIgnoreCase r.HeartDisease "absence" <;> simp [h]
  · intro r₁ r₂ h₁ h₂
    rw [computeModelStats_presenceAvg, computeModelStats_absenceAvg, filter_isPresence_eq,
      filter_isAbsence_eq, h₁, h₂, specProfile_singleton, specProfile_singleton]
    exact ⟨rfl, rfl⟩

/-- Witness of C4: the two-row table of the specification yields its two rows
as profiles. -/
theorem computeModelStats_profiles_witness :
    (computeModelStats [scenarioPresenceRow, scenarioAbsenceRow]).presenceAvg =
        rowProfile scenarioPresenceRow ∧
      (computeModelStats [scenarioPresenceRow, scenarioAbsenceRow]).absenceAvg =
        rowProfile scenarioAbsenceRow :=
  (computeModelStats_profiles [scenarioPresenceRow, scenarioAbsenceRow]).2.2.2
    scenarioPresenceRow scenarioAbsenceRow (by decide) (by decide)


theorem isPresence_of_contains {r : ReferenceRow}
    (h : "Presence".toList <:+: r.HeartDisease.toList) : isPresence r = true := by
  unfold isPresence includes toLowerCase
  rw [decide_eq_true_iff]
  exact h.map Char.toLower

theorem specProfile_finite {rows : List ReferenceRow} (hne : rows ≠ []) :
    (specProfile rows).Finite := by
  cases rows with
  | nil => exact absurd rfl hne
  | cons r rs => simp [specProfile, specMean, GroupProfile.Finite]

/-- C5, counterexample. A non-empty table whose only row carries the label
"Presence/Absence": every label contains "Presence", yet the absence profile
is that row, not the all-NaN profile. -/
theorem all_presence_labels_counterexample :
    [bothLabelsRow] ≠ [] ∧
    (∀ r ∈ [bothLabelsRow], "Presence".toList <:+: r.HeartDisease.toList) ∧
    (computeModelStats [bothLabelsRow]).absenceAvg = rowProfile bothLabelsRow ∧
    (computeModelStats [bothLabelsRow]).absenceAvg ≠ nanProfile := by
  have habs : isAbsence bothLabelsRow = true := by decide
  have h : (computeModelStats [bothLabelsRow]).absenceAvg = rowProfile bothLabelsRow := by
    rw [computeModelStats_absenceAvg]
    simp only [List.filter, habs]
    exact specProfile_singleton _
  refine ⟨by simp, by decide, h, ?_⟩
  rw [h]
  decide

/-- C5, amended. For every non-empty table in which every row's label contains
"Presence" and no row's label contains "absence" case-insensitively, the
absence profile has all eight fields NaN and the presence profile is the
arithmetic mean (a finite number in each field) of all input rows. -/
theorem computeModelStats_all_presence (rows : List ReferenceRow) (hne : rows ≠ [])
    (hP : ∀ r ∈ rows, "Presence".toList <:+: r.HeartDisease.toList)
    (hA : ∀ r ∈ rows, ¬ ContainsIgnoreCase r.HeartDisease "absence") :
    (computeModelStats rows).absenceAvg = nanProfile ∧
    (computeModelStats rows).presenceAvg = specProfile rows ∧
    (specProfile rows).Finite := by
  have h₁ : rows.filter isAbsence = [] := by
    rw [List.filter_eq_nil_iff]
    intro r hr h
    exact hA r hr ((isAbsence_iff r).mp h)
  have h₂ : rows.filter isPresence = rows := by
    rw [List.filter_eq_self]
    intro r hr
    exact isPresence_of_contains (hP r hr)
  refine ⟨?_, ?_, specProfile_finite hne⟩
  · rw [computeModelStats_absenceAvg, h₁]
    rfl
  · rw [computeModelStats_presenceAvg, h₂]

/-- Witness of C5, amended: the table made of the first row of the specification. -/
theorem computeModelStats_all_presence_witness :
    (computeModelStats [scenarioPresenceRow]).absenceAvg = nanProfile ∧
    (computeModelStats [scenarioPresenceRow]).presenceAvg = specProfile [scenarioPresenceRow] ∧
    (specProfile [scenarioPresenceRow]).Finite :=
  computeModelStats_all_presence [scenarioPresenceRow] (by simp) (by decide) (by decide)

theorem sigmoid_mono {z₁ z₂ : ℚ} (h : z₁ ≤ z₂) : sigmoid z₁ ≤ sigmoid z₂ := by
  unfold sigmoid
  have hc : (z₁ : ℝ) ≤ (z₂ : ℝ) := by exact_mod_cast h
  have he : Real.exp (-6 * ((z₂ : ℝ) - 0.5)) ≤ Real.exp (-6 * ((z₁ : ℝ) - 0.5)) :=
    Real.exp_le_exp.mpr (by linarith)
  have hp := Real.exp_pos (-6 * ((z₂ : ℝ) - 0.5))
  exact one_div_le_one_div_of_le (by linarith) (by linarith)

theorem clamp_sigmoid_mono {z₁ z₂ : ℚ} (h : z₁ ≤ z₂) :
    Min.min (1 : ℝ) (Max.max 0 (sigmoid z₁)) ≤ Min.min 1 (Max.max 0 (sigmoid z₂)) :=
  min_le_min le_rfl (max_le_max le_rfl (sigmoid_mono h))

theorem clamp_ratio_mono {v₁ v₂ lo hi : ℚ} (hlt : lo < hi) (h : v₁ ≤ v₂) :
    Min.min (1 : ℚ) (Max.max 0 ((v₁ - lo) / (hi - lo))) ≤
      Min.min 1 (Max.max 0 ((v₂ - lo) / (hi - lo))) :=
  min_le_min le_rfl (max_le_max le_rfl
    (div_le_div_of_nonneg_right (by linarith) (by linarith)))

/-- C6. With model statistics absent and the other fields fixed (finite
numbers), raising the age within [20, 80] does not lower the fallback score,
and raising the maximum heart rate within [90, 210] does not raise it. -/
theorem fallback_monotone (x : PatientRecord) (hx : x.Numeric) :
    (∀ a₁ a₂ : ℚ, 20 ≤ a₁ → a₁ ≤ a₂ → a₂ ≤ 80 →
      ∃ s₁ s₂ : ℝ, riskScore { x with age := some a₁ } none = some s₁ ∧
        riskScore { x with age := some a₂ } none = some s₂ ∧ s₁ ≤ s₂) ∧
    (∀ h₁ h₂ : ℚ, 90 ≤ h₁ → h₁ ≤ h₂ → h₂ ≤ 210 →
      ∃ s₁ s₂ : ℝ, riskScore { x with thalach := some h₁ } none = some s₁ ∧
        riskScore { x with thalach := some h₂ } none = some s₂ ∧ s₂ ≤ s₁) := by
  obtain ⟨age, sex, cp, bp, chol, fbs, th, ex⟩ := x
  simp only [PatientRecord.Numeric, Option.isSome_iff_exists] at hx
  obtain ⟨⟨a, rfl⟩, ⟨b, rfl⟩, ⟨c, rfl⟩, ⟨d, rfl⟩⟩ := hx
  constructor
  · intro a₁ a₂ _ h _
    refine ⟨_, _, riskScore_none_eq rfl, riskScore_none_eq rfl, clamp_sigmoid_mono ?_⟩
    have := clamp_ratio_mono (show (20 : ℚ) < 80 by norm_num) h
    linarith
  · intro h₁ h₂ _ h _
    refine ⟨_, _, riskScore_none_eq rfl, riskScore_none_eq rfl, clamp_sigmoid_mono ?_⟩
    have := clamp_ratio_mono (show (90 : ℚ) < 210 by norm_num) h
    linarith

/-- Witness of C6: ages 30 and 70, heart rates 100 and 200, other fields of the fallback scenario. -/
theorem fallback_monotone_witness :
    (∃ s₁ s₂ : ℝ, riskScore { fallbackPatient with age := some 30 } none = some s₁ ∧
        riskScore { fallbackPatient with age := some 70 } none = some s₂ ∧ s₁ ≤ s₂) ∧
    (∃ s₁ s₂ : ℝ, riskScore { fallbackPatient with thalach := some 100 } none = some s₁ ∧
        riskScore { fallbackPatient with thalach := some 200 } none = some s₂ ∧ s₂ ≤ s₁) :=
  ⟨(fallback_monotone fallbackPatient (by decide)).1 30 70 (by norm_num) (by norm_num)
      (by norm_num),
   (fallback_monotone fallbackPatient (by decide)).2 100 200 (by norm_num) (by norm_num)
      (by norm_num)⟩

theorem fallbackZ_fallbackPatient : fallbackZ fallbackPatient = some (0.53 + 0.14 * (2 / 3)) := by
  have h₁ : Min.min (1 : ℚ) (Max.max 0 ((50 - 20) / (80 - 20))) = 1 / 2 := by
    rw [max_eq_right (by norm_num), min_eq_right (by norm_num)]; norm_num
  have h₂ : Min.min (1 : ℚ) (Max.max 0 ((145 - 90) / (200 - 90))) = 1 / 2 := by
    rw [max_eq_right (by norm_num), min_eq_right (by norm_num)]; norm_num
  have h₃ : Min.min (1 : ℚ) (Max.max 0 ((260 - 120) / (400 - 120))) = 1 / 2 := by
    rw [max_eq_right (by norm_num), min_eq_right (by norm_num)]; norm_num
  have h₄ : Min.min (1 : ℚ) (Max.max 0 ((130 - 90) / (210 - 90))) = 1 / 3 := by
    rw [max_eq_right (by norm_num), min_eq_right (by norm_num)]; norm_num
  simp only [fallbackZ, fallbackPatient, norm, Option.map_some', h₁, h₂, h₃, h₄, cpScore]
  norm_num

theorem sigmoid_scenario_ge : (0.66 : ℝ) ≤ sigmoid (0.53 + 0.14 * (2 / 3)) := by
  unfold sigmoid
  have hq := Real.quadratic_le_exp_of_nonneg (show (0 : ℝ) ≤ 0.74 by norm_num)
  have harg : (-6 * (((0.53 + 0.14 * (2 / 3) : ℚ) : ℝ) - 0.5)) = -(0.74 : ℝ) := by
    push_cast; norm_num
  rw [harg, Real.exp_neg]
  have hpos := Real.exp_pos (0.74 : ℝ)
  rw [le_div_iff₀ (by positivity)]
  have hinv : (Real.exp 0.74)⁻¹ ≤ (1 / 2 : ℝ) := by
    rw [inv_le_comm₀ hpos (by norm_num)]
    norm_num at hq ⊢
    linarith
  linarith

/-- C7. With model statistics absent, the patient of the concrete fallback
scenario has `z = 0.53 + 0.14 * (2 / 3)`, the score `1 / (1 + exp (-6 * (z - 0.5)))`,
which is at least 0.66, and `scoreTier` classifies it as "high". -/
theorem fallback_scenario_high :
    fallbackZ fallbackPatient = some (0.53 + 0.14 * (2 / 3)) ∧
    ∃ s : ℝ, riskScore fallbackPatient none = some s ∧
      s = 1 / (1 + Real.exp (-6 * ((0.53 + 0.14 * (2 / 3) : ℝ) - 0.5))) ∧
      0.66 ≤ s ∧ scoreTier (riskScore fallbackPatient none) = "high" := by
  have hz := fallbackZ_fallbackPatient
  have hge := sigmoid_scenario_ge
  have hle : sigmoid (0.53 + 0.14 * (2 / 3)) ≤ 1 := by
    unfold sigmoid
    have := Real.exp_pos (-6 * (((0.53 + 0.14 * (2 / 3) : ℚ) : ℝ) - 0.5))
    rw [div_le_one (by linarith)]
    linarith
  have hs : riskScore fallbackPatient none = some (sigmoid (0.53 + 0.14 * (2 / 3))) := by
    rw [riskScore_none_eq hz, max_eq_right (by linarith), min_eq_right hle]
  refine ⟨hz, _, hs, ?_, hge, ?_⟩
  · unfold sigmoid; push_cast; rfl
  · rw [hs]
    simp [scoreTier, hge]


theorem sumSquares_eq_spec (v p : GroupProfile) :
    sumSquares v p = specWeightedSquares specWeights v.toList p.toList := by
  obtain ⟨a, b, c, d, e, f, g, k⟩ := v
  obtain ⟨a', b', c', d', e', f', g', k'⟩ := p
  rcases a with _ | a
  · simp [sumSquares, specWeightedSquares, specWeights, GroupProfile.toList]
  rcases a' with _ | a'
  · simp [sumSquares, specWeightedSquares, specWeights, GroupProfile.toList]
  rcases f with _ | f
  · simp [sumSquares, specWeightedSquares, specWeights, GroupProfile.toList]
  rcases f' with _ | f'
  · simp [sumSquares, specWeightedSquares, specWeights, GroupProfile.toList]
  rcases e with _ | e
  · simp [sumSquares, specWeightedSquares, specWeights, GroupProfile.toList]
  rcases e' with _ | e'
  · simp [sumSquares, specWeightedSquares, specWeights, GroupProfile.toList]
  rcases b with _ | b
  · simp [sumSquares, specWeightedSquares, specWeights, GroupProfile.toList]
  rcases b' with _ | b'
  · simp [sumSquares, specWeightedSquares, specWeights, GroupProfile.toList]
  rcases c with _ | c
  · simp [sumSquares, specWeightedSquares, specWeights, GroupProfile.toList]
  rcases c' with _ | c'
  · simp [sumSquares, specWeightedSquares, specWeights, GroupProfile.toList]
  rcases g with _ | g
  · simp [sumSquares, specWeightedSquares, specWeights, GroupProfile.toList]
  rcases g' with _ | g'
  · simp [sumSquares, specWeightedSquares, specWeights, GroupProfile.toList]
  rcases d with _ | d
  · simp [sumSquares, specWeightedSquares, specWeights, GroupProfile.toList]
  rcases d' with _ | d'
  · simp [sumSquares, specWeightedSquares, specWeights, GroupProfile.toList]
  rcases k with _ | k
  · simp [sumSquares, specWeightedSquares, specWeights, GroupProfile.toList]
  rcases k' with _ | k'
  · simp [sumSquares, specWeightedSquares, specWeights, GroupProfile.toList]
  simp only [sumSquares, specWeightedSquares, specWeights, GroupProfile.toList, Option.map_some']
  congr 1
  ring


theorem specEncode_eq {x : PatientRecord}
    (hcp : x.cp ∈ ["typical", "atypical", "non-anginal", "asymptomatic"]) :
    specEncode x = (encode x).toList := by
  have h : specChestPainCode x.cp = some (cpCode x.cp) := by
    simp only [List.mem_cons, List.mem_singleton, List.not_mem_nil, or_false] at hcp
    rcases hcp with h | h | h | h <;> rw [h] <;> decide
  simp [specEncode, encode, GroupProfile.toList, h]

theorem jsSqrt_sumSquares (v p : GroupProfile) :
    jsSqrt (sumSquares v p) = (sumSquares v p).map fun q => Real.sqrt (q : ℝ) := by
  cases h : sumSquares v p with
  | none => rfl
  | some q => rw [jsSqrt_some (sumSquares_nonneg h)]; rfl

theorem numeric_of_encode_finite {x : PatientRecord} (h : (encode x).Finite) : x.Numeric := by
  obtain ⟨h1, h2, h3, h4, -⟩ := h
  exact ⟨h1, h2, h3, h4⟩

theorem dist_eq_of_sumSquares {x : PatientRecord} {ms : ModelStats} {qP qA : ℚ}
    (hP : sumSquares (encode x) ms.presenceAvg = some qP)
    (hA : sumSquares (encode x) ms.absenceAvg = some qA) :
    distToPresence x ms = some (Real.sqrt (qP : ℝ)) ∧
    distToAbsence x ms = some (Real.sqrt (qA : ℝ)) := by
  have h₁ : distToPresence x ms = some (Real.sqrt (qP : ℝ)) := by
    rw [distToPresence, hP, jsSqrt_some (sumSquares_nonneg hP)]
  have h₂ : distToAbsence x ms = some (Real.sqrt (qA : ℝ)) := by
    rw [distToAbsence, hA, jsSqrt_some (sumSquares_nonneg hA)]
  exact ⟨h₁, h₂⟩

/-- C8. For a patient with one of the four listed chest-pain tags, each of the
two distances computed by `riskScore` is the weighted Euclidean distance of
the specification (weights 1, 10, 15, 0.01, 0.001, 8, 0.02, 12 on the encoded
vector); both distances are numbers when the inputs are finite; and when they
do not sum to zero the score is `distToAbsence / (distToPresence + distToAbsence)`. -/
theorem dist_eq_specDistance (x : PatientRecord) (ms : ModelStats)
    (hcp : x.cp ∈ ["typical", "atypical", "non-anginal", "asymptomatic"]) :
    distToPresence x ms = specDistance (specEncode x) ms.presenceAvg.toList ∧
    distToAbsence x ms = specDistance (specEncode x) ms.absenceAvg.toList ∧
    (x.Numeric → ms.presenceAvg.Finite → ms.absenceAvg.Finite →
      ∃ dP dA : ℝ, distToPresence x ms = some dP ∧ distToAbsence x ms = some dA) ∧
    (∀ dP dA : ℝ, distToPresence x ms = some dP → distToAbsence x ms = some dA →
      dP + dA ≠ 0 → riskScore x (some ms) = some (dA / (dP + dA))) := by
  refine ⟨?_, ?_, ?_, ?_⟩
  · rw [distToPresence, jsSqrt_sumSquares, sumSquares_eq_spec, specEncode_eq hcp]; rfl
  · rw [distToAbsence, jsSqrt_sumSquares, sumSquares_eq_spec, specEncode_eq hcp]; rfl
  · intro hx hP hA
    obtain ⟨qP, hqP⟩ := sumSquares_isSome (encode_finite hx) hP
    obtain ⟨qA, hqA⟩ := sumSquares_isSome (encode_finite hx) hA
    exact ⟨_, _, (dist_eq_of_sumSquares hqP hqA).1, (dist_eq_of_sumSquares hqP hqA).2⟩
  · intro dP dA hdP hdA hne
    simp [riskScore, hdP, hdA, hne]

/-- Witness of C8: the patient and the two-row table of the specification. -/
theorem dist_eq_specDistance_witness :
    distToPresence scenarioPatient (computeModelStats [scenarioPresenceRow, scenarioAbsenceRow]) =
      specDistance (specEncode scenarioPatient)
        (computeModelStats [scenarioPresenceRow, scenarioAbsenceRow]).presenceAvg.toList :=
  (dist_eq_specDistance scenarioPatient _ (by decide)).1

/-- C11. The two groups of `computeModelStats` are not a partition: in the
table made of the two rows of the specification and one row labelled
"Presence/Absence", that row lies in the presence group and in the absence
group, and both profiles differ from those of the table without it; and for
every table the returned total is the number of all input rows, so a row in
neither group is counted as well. -/
theorem computeModelStats_groups_overlap :
    (ContainsIgnoreCase overlapRow.HeartDisease "presence" ∧
      ContainsIgnoreCase overlapRow.HeartDisease "absence" ∧
      overlapRow ∈ [scenarioPresenceRow, scenarioAbsenceRow, overlapRow].filter isPresence ∧
      overlapRow ∈ [scenarioPresenceRow, scenarioAbsenceRow, overlapRow].filter isAbsence ∧
      (computeModelStats [scenarioPresenceRow, scenarioAbsenceRow, overlapRow]).presenceAvg ≠
        (computeModelStats [scenarioPresenceRow, scenarioAbsenceRow]).presenceAvg ∧
      (computeModelStats [scenarioPresenceRow, scenarioAbsenceRow, overlapRow]).absenceAvg ≠
        (computeModelStats [scenarioPresenceRow, scenarioAbsenceRow]).absenceAvg) ∧
    (∀ rows : List ReferenceRow, (computeModelStats rows).total = rows.length) ∧
    ([scenarioPresenceRow, unlabelledRow].filter isPresence = [scenarioPresenceRow] ∧
      [scenarioPresenceRow, unlabelledRow].filter isAbsence = [] ∧
      (computeModelStats [scenarioPresenceRow, unlabelledRow]).total = 2) := by
  have hP : [scenarioPresenceRow, scenarioAbsenceRow, overlapRow].filter isPresence =
      [scenarioPresenceRow, overlapRow] := by decide
  have hA : [scenarioPresenceRow, scenarioAbsenceRow, overlapRow].filter isAbsence =
      [scenarioAbsenceRow, overlapRow] := by decide
  refine ⟨⟨by decide, by decide, by rw [hP]; simp, by rw [hA]; simp, ?_, ?_⟩,
    fun rows => rfl, by decide, by decide, rfl⟩
  · intro h
    rw [scenario_stats, computeModelStats_presenceAvg, hP] at h
    have hage := congrArg GroupProfile.age h
    simp [specProfile, specMean, rowProfile, scenarioPresenceRow, overlapRow] at hage
    norm_num at hage
  · intro h
    rw [scenario_stats, computeModelStats_absenceAvg, hA] at h
    have hage := congrArg GroupProfile.age h
    simp [specProfile, specMean, rowProfile, scenarioAbsenceRow, overlapRow] at hage
    norm_num at hage

/-! ## Binary64 rounding: auxiliary lemmas -/

theorem roundHalfEven_eq_of_abs_sub_lt {α : Type} [LinearOrderedField α] [FloorRing α]
    {t : α} {n : ℤ} (h : |t - (n : α)| < 1 / 2) :
    roundHalfEven t = n := by
  rw [abs_lt] at h
  obtain ⟨h₁, h₂⟩ := h
  unfold roundHalfEven
  rcases le_or_lt (n : α) t with hn | hn
  · have hf : ⌊t⌋ = n := by
      rw [Int.floor_eq_iff]
      constructor <;> linarith
    rw [hf, if_pos (by linarith)]
  · have hf : ⌊t⌋ = n - 1 := by
      rw [Int.floor_eq_iff]
      push_cast
      constructor <;> linarith
    rw [hf]
    push_cast
    rw [if_neg (by linarith), if_pos (by linarith)]
    ring

theorem roundHalfEven_intCast {α : Type} [LinearOrderedField α] [FloorRing α]
    (n : ℤ) : roundHalfEven (n : α) = n :=
  roundHalfEven_eq_of_abs_sub_lt (by simp)

theorem roundHalfEven_tie_odd {α : Type} [LinearOrderedField α] [FloorRing α]
    {t : α} {n : ℤ} (h : t = (n : α) + 1 / 2) (hodd : n % 2 = 1) :
    roundHalfEven t = n + 1 := by
  have hf : ⌊t⌋ = n := by
    rw [Int.floor_eq_iff]
    constructor <;> linarith
  unfold roundHalfEven
  rw [hf, if_neg (by rw [h]; simp), if_neg (by rw [h]; simp), if_neg (by omega)]

theorem floor_le_roundHalfEven {α : Type} [LinearOrderedField α] [FloorRing α]
    (t : α) : ⌊t⌋ ≤ roundHalfEven t := by
  unfold roundHalfEven
  split_ifs <;> omega

theorem roundHalfEven_le_floor_add_one {α : Type} [LinearOrderedField α] [FloorRing α]
    (t : α) : roundHalfEven t ≤ ⌊t⌋ + 1 := by
  unfold roundHalfEven
  split_ifs <;> omega

theorem roundHalfEven_mono {α : Type} [LinearOrderedField α] [FloorRing α]
    {s t : α} (h : s ≤ t) : roundHalfEven s ≤ roundHalfEven t := by
  rcases lt_or_eq_of_le (Int.floor_mono h) with hlt | heq
  · calc roundHalfEven s ≤ ⌊s⌋ + 1 := roundHalfEven_le_floor_add_one s
      _ ≤ ⌊t⌋ := hlt
      _ ≤ roundHalfEven t := floor_le_roundHalfEven t
  · unfold roundHalfEven
    rw [← heq]
    split_ifs <;> first | omega | (exfalso; linarith)

theorem two_zpow_succ_eq {α : Type} [LinearOrderedField α]
    (e : ℤ) : (2 : α) ^ (e + 1) = 2 ^ (53 : ℕ) * 2 ^ (e - 52) := by
  rw [← zpow_natCast, ← zpow_add₀ (two_ne_zero' α)]
  congr 1
  push_cast
  ring

theorem two_zpow_eq {α : Type} [LinearOrderedField α]
    (e : ℤ) : (2 : α) ^ e = 2 ^ (52 : ℕ) * 2 ^ (e - 52) := by
  rw [← zpow_natCast, ← zpow_add₀ (two_ne_zero' α)]
  congr 1
  push_cast
  ring

theorem binadeExp_ge {α : Type} [LinearOrderedField α] [FloorRing α]
    (x : α) : -1022 ≤ binadeExp x := le_max_right _ _

theorem abs_lt_two_zpow_binadeExp {α : Type} [LinearOrderedField α] [FloorRing α]
    (x : α) : |x| < (2 : α) ^ (binadeExp x + 1) := by
  have h := Int.lt_zpow_succ_log_self (b := 2) (by norm_num) |x|
  have hle : Int.log 2 |x| + 1 ≤ binadeExp x + 1 := by
    have := le_max_left (Int.log 2 |x|) (-1022)
    unfold binadeExp
    omega
  calc |x| < ((2 : ℕ) : α) ^ (Int.log 2 |x| + 1) := h
    _ = (2 : α) ^ (Int.log 2 |x| + 1) := by norm_num
    _ ≤ (2 : α) ^ (binadeExp x + 1) := zpow_le_zpow_right₀ (by norm_num) hle

theorem two_zpow_binadeExp_le {α : Type} [LinearOrderedField α] [FloorRing α]
    {x : α} (hx : x ≠ 0) (h : -1022 < binadeExp x) :
    (2 : α) ^ binadeExp x ≤ |x| := by
  have hlog : binadeExp x = Int.log 2 |x| := by
    unfold binadeExp at h ⊢
    rcases le_total (Int.log 2 |x|) (-1022) with h' | h'
    · rw [max_eq_right h'] at h; omega
    · exact max_eq_left h'
  rw [hlog]
  have := Int.zpow_log_le_self (b := 2) (by norm_num) (abs_pos.mpr hx)
  simpa using this

theorem binadeExp_le_of_abs_lt {α : Type} [LinearOrderedField α] [FloorRing α]
    {x : α} (hx : x ≠ 0) {k : ℤ} (hk : -1022 ≤ k)
    (h : |x| < (2 : α) ^ (k + 1)) : binadeExp x ≤ k := by
  have h' : |x| < ((2 : ℕ) : α) ^ (k + 1) := by simpa using h
  have := (Int.lt_zpow_iff_log_lt (b := 2) (by norm_num) (abs_pos.mpr hx)).mp h'
  unfold binadeExp
  exact max_le (by omega) hk

theorem le_binadeExp_of_le_abs {α : Type} [LinearOrderedField α] [FloorRing α]
    {x : α} (hx : x ≠ 0) {k : ℤ}
    (h : (2 : α) ^ k ≤ |x|) : k ≤ binadeExp x := by
  have h' : ((2 : ℕ) : α) ^ k ≤ |x| := by simpa using h
  have := (Int.zpow_le_iff_le_log (b := 2) (by norm_num) (abs_pos.mpr hx)).mp h'
  exact le_trans this (le_max_left _ _)

theorem binadeExp_mono {α : Type} [LinearOrderedField α] [FloorRing α]
    {x y : α} (hx : 0 < x) (h : x ≤ y) : binadeExp x ≤ binadeExp y := by
  unfold binadeExp
  rw [abs_of_pos hx, abs_of_pos (lt_of_lt_of_le hx h)]
  exact max_le_max (Int.log_mono_right hx h) le_rfl

theorem roundFin_zero {α : Type} [LinearOrderedField α] [FloorRing α]
    : roundFin (0 : α) = 0 := by
  unfold roundFin
  rw [zero_div]
  have : roundHalfEven (0 : α) = 0 := by
    have := roundHalfEven_intCast (α := α) 0
    simpa using this
  rw [this]
  simp

theorem roundHalfEven_nonneg {α : Type} [LinearOrderedField α] [FloorRing α]
    {t : α} (h : 0 ≤ t) : 0 ≤ roundHalfEven t := by
  have h₀ : roundHalfEven (0 : α) = 0 := by
    have := roundHalfEven_intCast (α := α) 0
    simpa using this
  rw [← h₀]
  exact roundHalfEven_mono h

theorem roundFin_nonneg {α : Type} [LinearOrderedField α] [FloorRing α]
    {x : α} (h : 0 ≤ x) : 0 ≤ roundFin x := by
  unfold roundFin
  have : 0 ≤ roundHalfEven (x / (2 : α) ^ (binadeExp x - 52)) :=
    roundHalfEven_nonneg (div_nonneg h (by positivity))
  have h2 : (0 : ℚ) ≤ (roundHalfEven (x / (2 : α) ^ (binadeExp x - 52)) : ℚ) := by
    exact_mod_cast this
  positivity

/-- The integer significand chosen by the rounding is at most `2 ^ 53`. -/
theorem roundHalfEven_div_le {α : Type} [LinearOrderedField α] [FloorRing α]
    (x : α) :
    roundHalfEven (x / (2 : α) ^ (binadeExp x - 52)) ≤ 2 ^ (53 : ℕ) := by
  have hlt := abs_lt_two_zpow_binadeExp x
  rw [two_zpow_succ_eq] at hlt
  have hu : (0 : α) < 2 ^ (binadeExp x - 52) := by positivity
  have hle : x / (2 : α) ^ (binadeExp x - 52) ≤ (((2 : ℤ) ^ (53 : ℕ) : ℤ) : α) := by
    simp only [Int.cast_pow, Int.cast_ofNat]
    rw [div_le_iff₀ hu]
    exact le_trans (le_abs_self x) hlt.le
  have := roundHalfEven_mono hle
  rwa [roundHalfEven_intCast] at this

theorem roundFin_le_two_zpow {α : Type} [LinearOrderedField α] [FloorRing α]
    (x : α) : roundFin x ≤ (2 : ℚ) ^ (binadeExp x + 1) := by
  unfold roundFin
  rw [two_zpow_succ_eq]
  have h : (roundHalfEven (x / (2 : α) ^ (binadeExp x - 52)) : ℚ) ≤ 2 ^ (53 : ℕ) := by
    exact_mod_cast roundHalfEven_div_le x
  exact mul_le_mul_of_nonneg_right h (by positivity)

theorem two_zpow_le_roundFin {α : Type} [LinearOrderedField α] [FloorRing α]
    {x : α} (hx : 0 < x) (h : -1022 < binadeExp x) :
    (2 : ℚ) ^ binadeExp x ≤ roundFin x := by
  have hle := two_zpow_binadeExp_le hx.ne' h
  rw [abs_of_pos hx, two_zpow_eq] at hle
  have hu : (0 : α) < 2 ^ (binadeExp x - 52) := by positivity
  have hge : (((2 : ℤ) ^ (52 : ℕ) : ℤ) : α) ≤ x / (2 : α) ^ (binadeExp x - 52) := by
    simp only [Int.cast_pow, Int.cast_ofNat]
    rw [le_div_iff₀ hu]
    exact hle
  have := roundHalfEven_mono hge
  rw [roundHalfEven_intCast] at this
  unfold roundFin
  rw [two_zpow_eq (α := ℚ)]
  have h' : ((2 : ℚ) ^ (52 : ℕ)) ≤ (roundHalfEven (x / (2 : α) ^ (binadeExp x - 52)) : ℚ) := by
    exact_mod_cast this
  exact mul_le_mul_of_nonneg_right h' (by positivity)

/-- Rounding is monotone on the non-negative numbers. -/
theorem roundFin_mono {α : Type} [LinearOrderedField α] [FloorRing α]
    {x y : α} (hx : 0 ≤ x) (h : x ≤ y) : roundFin x ≤ roundFin y := by
  rcases eq_or_lt_of_le hx with h0 | hpos
  · rw [← h0, roundFin_zero]
    exact roundFin_nonneg (le_trans hx h)
  · have hy : 0 < y := lt_of_lt_of_le hpos h
    rcases lt_or_eq_of_le (binadeExp_mono hpos h) with hlt | heq
    · calc roundFin x ≤ (2 : ℚ) ^ (binadeExp x + 1) := roundFin_le_two_zpow x
        _ ≤ (2 : ℚ) ^ binadeExp y := zpow_le_zpow_right₀ (by norm_num) hlt
        _ ≤ roundFin y := two_zpow_le_roundFin hy (by have := binadeExp_ge x; omega)
    · unfold roundFin
      rw [heq]
      have hu : (0 : α) < 2 ^ (binadeExp y - 52) := by positivity
      have := roundHalfEven_mono (div_le_div_of_nonneg_right h hu.le)
      have h' : (roundHalfEven (x / (2 : α) ^ (binadeExp y - 52)) : ℚ) ≤
          (roundHalfEven (y / (2 : α) ^ (binadeExp y - 52)) : ℚ) := by exact_mod_cast this
      exact mul_le_mul_of_nonneg_right h' (by positivity)

theorem binadeExp_eq {α : Type} [LinearOrderedField α] [FloorRing α]
    {x : α} (hx : x ≠ 0) {e : ℤ} (he : -1022 ≤ e)
    (hlo : e = -1022 ∨ (2 : α) ^ e ≤ |x|) (hhi : |x| < (2 : α) ^ (e + 1)) : binadeExp x = e := by
  apply le_antisymm (binadeExp_le_of_abs_lt hx he hhi)
  rcases hlo with h | h
  · rw [h]; exact binadeExp_ge x
  · exact le_binadeExp_of_le_abs hx h

theorem roundFin_eq_of_near {α : Type} [LinearOrderedField α] [FloorRing α]
    {x : α} (hx : x ≠ 0) {e n : ℤ} (he : -1022 ≤ e)
    (hlo : e = -1022 ∨ (2 : α) ^ e ≤ |x|) (hhi : |x| < (2 : α) ^ (e + 1))
    (hn : |x / (2 : α) ^ (e - 52) - (n : α)| < 1 / 2) :
    roundFin x = (n : ℚ) * (2 : ℚ) ^ (e - 52) := by
  unfold roundFin
  rw [binadeExp_eq hx he hlo hhi, roundHalfEven_eq_of_abs_sub_lt hn]

theorem roundFin_eq_of_tie_odd {α : Type} [LinearOrderedField α] [FloorRing α]
    {x : α} (hx : x ≠ 0) {e n : ℤ} (he : -1022 ≤ e)
    (hlo : e = -1022 ∨ (2 : α) ^ e ≤ |x|) (hhi : |x| < (2 : α) ^ (e + 1))
    (hn : x / (2 : α) ^ (e - 52) = (n : α) + 1 / 2) (hodd : n % 2 = 1) :
    roundFin x = ((n + 1 : ℤ) : ℚ) * (2 : ℚ) ^ (e - 52) := by
  unfold roundFin
  rw [binadeExp_eq hx he hlo hhi, roundHalfEven_tie_odd hn hodd]

/-- A non-negative value below half of the least subnormal rounds to zero. -/
theorem roundFin_eq_zero_of_lt {α : Type} [LinearOrderedField α] [FloorRing α]
    {x : α} (h₀ : 0 ≤ x) (h : x < (2 : α) ^ (-1075 : ℤ)) :
    roundFin x = 0 := by
  rcases eq_or_lt_of_le h₀ with h0 | hpos
  · rw [← h0, roundFin_zero]
  · have hlt : |x| < (2 : α) ^ (-1022 + 1 : ℤ) := by
      rw [abs_of_pos hpos]
      exact lt_of_lt_of_le h (zpow_le_zpow_right₀ (by norm_num) (by norm_num))
    have := roundFin_eq_of_near (n := 0) hpos.ne' le_rfl (Or.inl rfl) hlt (by
      rw [Int.cast_zero, sub_zero, abs_of_nonneg (div_nonneg h₀ (by positivity)),
        div_lt_iff₀ (by positivity)]
      calc x < (2 : α) ^ (-1075 : ℤ) := h
        _ = 1 / 2 * 2 ^ (-1022 - 52 : ℤ) := by
          rw [show (1 / 2 : α) = 2 ^ (-1 : ℤ) by norm_num, ← zpow_add₀ (two_ne_zero' α)]
          norm_num)
    rw [this]
    simp

theorem roundHalfEven_scaled (m k e : ℤ) (hle : e ≤ k + 52) :
    (roundHalfEven ((m : ℚ) * (2 : ℚ) ^ k / (2 : ℚ) ^ (e - 52)) : ℚ) * (2 : ℚ) ^ (e - 52) =
      (m : ℚ) * (2 : ℚ) ^ k := by
  obtain ⟨n, hn⟩ : ∃ n : ℕ, (n : ℤ) = k + 52 - e := ⟨(k + 52 - e).toNat, by omega⟩
  have hk : k = (n : ℤ) + (e - 52) := by omega
  subst hk
  have hdiv : (m : ℚ) * (2 : ℚ) ^ ((n : ℤ) + (e - 52)) / (2 : ℚ) ^ (e - 52) =
      ((m * 2 ^ n : ℤ) : ℚ) := by
    rw [div_eq_iff (by positivity)]
    push_cast
    rw [zpow_add₀ (two_ne_zero' ℚ), zpow_natCast]
    ring
  rw [hdiv, roundHalfEven_intCast]
  push_cast
  rw [zpow_add₀ (two_ne_zero' ℚ), zpow_natCast]
  ring

theorem roundFin_of_representable {q : ℚ} (h : Representable q) : roundFin q = q := by
  obtain ⟨m, k, hm, hk, rfl⟩ := h
  by_cases h0 : (m : ℚ) * (2 : ℚ) ^ k = 0
  · rw [h0, roundFin_zero]
  · have hlt : |(m : ℚ) * (2 : ℚ) ^ k| < (2 : ℚ) ^ (k + 52 + 1) := by
      rw [abs_mul, abs_of_pos (show (0 : ℚ) < 2 ^ k by positivity),
        show k + 52 + 1 = 53 + k by ring, zpow_add₀ (two_ne_zero' ℚ)]
      have : |(m : ℚ)| < 2 ^ (53 : ℤ) := by
        rw [← Int.cast_abs, show (2 : ℚ) ^ (53 : ℤ) = ((2 ^ (53 : ℕ) : ℤ) : ℚ) by norm_num]
        exact Int.cast_lt.mpr hm
      exact mul_lt_mul_of_pos_right this (by positivity)
    have hle : binadeExp ((m : ℚ) * (2 : ℚ) ^ k) ≤ k + 52 :=
      binadeExp_le_of_abs_lt h0 (by omega) hlt
    unfold roundFin
    exact roundHalfEven_scaled m k _ hle

theorem representable_roundFin {α : Type} [LinearOrderedField α] [FloorRing α] {x : α}
    (hx : 0 ≤ x) : Representable (roundFin x) := by
  have h₁ := roundHalfEven_div_le x
  have h₂ : 0 ≤ roundHalfEven (x / (2 : α) ^ (binadeExp x - 52)) :=
    roundHalfEven_nonneg (div_nonneg hx (by positivity))
  have he := binadeExp_ge x
  rcases lt_or_eq_of_le h₁ with hlt | heq
  · exact ⟨_, binadeExp x - 52, by rw [abs_of_nonneg h₂]; exact hlt, by omega, rfl⟩
  · refine ⟨2 ^ (52 : ℕ), binadeExp x - 51, by norm_num, by omega, ?_⟩
    unfold roundFin
    rw [heq, show binadeExp x - 51 = 1 + (binadeExp x - 52) by ring,
      zpow_add₀ (two_ne_zero' ℚ)]
    push_cast
    ring

theorem representable_two_mul {q : ℚ} (h : Representable q) : Representable (q + q) := by
  obtain ⟨m, k, hm, hk, rfl⟩ := h
  refine ⟨m, k + 1, hm, by omega, ?_⟩
  rw [zpow_add₀ (two_ne_zero' ℚ)]
  ring

/-! ## Binary64 operations: auxiliary lemmas -/

theorem F64.fin_sub_fin (a b : ℚ) : F64.fin a - F64.fin b = round64 (a - b) := rfl

theorem F64.fin_add_fin (a b : ℚ) : F64.fin a + F64.fin b = round64 (a + b) := rfl

theorem F64.fin_mul_fin (a b : ℚ) : F64.fin a * F64.fin b = round64 (a * b) := rfl

theorem F64.fin_div_fin (a : ℚ) {b : ℚ} (hb : b ≠ 0) :
    F64.fin a / F64.fin b = round64 (a / b) := by
  show F64.div (F64.fin a) (F64.fin b) = _
  simp [F64.div, hb]

theorem F64.pow2_fin (d : ℚ) : (F64.fin d).pow2 = round64 (d * d) := rfl

theorem round64_ne_nan {α : Type} [LinearOrderedField α] [FloorRing α] (x : α) :
    round64 x ≠ F64.nan := by
  unfold round64
  split_ifs <;> simp

theorem round64_nonneg {α : Type} [LinearOrderedField α] [FloorRing α] {x : α} (hx : 0 ≤ x) :
    (round64 x).Nonneg := by
  unfold round64
  split_ifs
  · simp [F64.Nonneg, not_lt.mpr (roundFin_nonneg hx)]
  · exact roundFin_nonneg hx

theorem round64_eq_fin {α : Type} [LinearOrderedField α] [FloorRing α] {x : α} {r : ℚ}
    (h : round64 x = F64.fin r) : roundFin x = r ∧ |r| < (2 : ℚ) ^ (1024 : ℕ) := by
  unfold round64 at h
  split_ifs at h with hlt
  · injection h with h
    exact ⟨h, h ▸ not_le.mp hlt⟩

theorem round64_of_roundFin_lt {α : Type} [LinearOrderedField α] [FloorRing α] {x : α}
    (h : |roundFin x| < (2 : ℚ) ^ (1024 : ℕ)) : round64 x = F64.fin (roundFin x) := by
  unfold round64
  rw [if_neg (not_le.mpr h)]

theorem round64_of_representable {q : ℚ} (h : Representable q)
    (hlt : |q| < (2 : ℚ) ^ (1024 : ℕ)) : round64 q = F64.fin q := by
  have hr := roundFin_of_representable h
  rw [round64_of_roundFin_lt (by rw [hr]; exact hlt), hr]

theorem round64_zero {α : Type} [LinearOrderedField α] [FloorRing α] :
    round64 (0 : α) = F64.fin 0 := by
  rw [round64_of_roundFin_lt (by rw [roundFin_zero]; norm_num), roundFin_zero]

theorem representable_two_pow (n : ℕ) : Representable ((2 : ℚ) ^ n) :=
  ⟨1, n, by norm_num, by omega, by rw [zpow_natCast]; norm_num⟩

/-- A result of at least `2 ^ 1024` overflows to the positive infinity. -/
theorem round64_eq_inf_of_le {q : ℚ} (h : (2 : ℚ) ^ (1024 : ℕ) ≤ q) :
    round64 q = F64.inf false := by
  have h₀ : (0 : ℚ) ≤ 2 ^ (1024 : ℕ) := by positivity
  have hm := roundFin_mono h₀ h
  rw [roundFin_of_representable (representable_two_pow 1024)] at hm
  have hpos : 0 ≤ roundFin q := le_trans h₀ hm
  unfold round64
  rw [if_pos (by rw [abs_of_nonneg hpos]; exact hm)]
  simp [not_lt.mpr hpos]

theorem F64.pow2_nonneg {d : F64} (h : d ≠ F64.nan) : d.pow2.Nonneg := by
  cases d with
  | nan => exact absurd rfl h
  | inf s => rfl
  | fin q => exact round64_nonneg (mul_self_nonneg q)

theorem F64.Nonneg.mul_fin {t : F64} (ht : t.Nonneg) {c : ℚ} (hc : 0 < c) :
    (t * F64.fin c).Nonneg := by
  cases t with
  | nan => exact ht
  | inf s =>
    show (F64.mul (F64.inf s) (F64.fin c)).Nonneg
    have hs : s = false := ht
    simp [F64.mul, hc.ne', hs, not_lt.mpr hc.le, F64.Nonneg]
  | fin q =>
    have hq : 0 ≤ q := ht
    exact round64_nonneg (mul_nonneg hq hc.le)

theorem F64.Nonneg.div_fin {t : F64} (ht : t.Nonneg) {c : ℚ} (hc : 0 < c) :
    (t / F64.fin c).Nonneg := by
  cases t with
  | nan => exact ht
  | inf s =>
    show (F64.div (F64.inf s) (F64.fin c)).Nonneg
    have hs : s = false := ht
    simp [F64.div, hs, not_lt.mpr hc.le, F64.Nonneg]
  | fin q =>
    have hq : 0 ≤ q := ht
    rw [F64.fin_div_fin q hc.ne']
    exact round64_nonneg (div_nonneg hq hc.le)

theorem F64.Nonneg.add {s t : F64} (hs : s.Nonneg) (ht : t.Nonneg) : (s + t).Nonneg := by
  cases s with
  | nan => exact False.elim hs
  | inf a =>
    cases t with
    | nan => exact False.elim ht
    | inf b =>
      have ha : a = false := hs
      have hb : b = false := ht
      subst ha hb
      rfl
    | fin q => exact hs
  | fin p =>
    cases t with
    | nan => exact False.elim ht
    | inf b => exact ht
    | fin q =>
      have hp : 0 ≤ p := hs
      have hq : 0 ≤ q := ht
      exact round64_nonneg (add_nonneg hp hq)

theorem F64.Nonneg.sqrt {s : F64} (hs : s.Nonneg) : s.sqrt.Nonneg := by
  cases s with
  | nan => exact hs
  | inf a =>
    have ha : a = false := hs
    subst ha
    rfl
  | fin q =>
    have hq : 0 ≤ q := hs
    show (if q < 0 then F64.nan else round64 (Real.sqrt (q : ℝ))).Nonneg
    rw [if_neg (not_lt.mpr hq)]
    exact round64_nonneg (Real.sqrt_nonneg _)

/-- A finite square root is a non-negative double. -/
theorem F64.sqrt_eq_fin {s : F64} {a : ℚ} (h : s.sqrt = F64.fin a) :
    0 ≤ a ∧ Representable a ∧ |a| < (2 : ℚ) ^ (1024 : ℕ) := by
  cases s with
  | nan => cases h
  | inf b =>
    cases b <;> cases h
  | fin q =>
    have h' : (if q < 0 then F64.nan else round64 (Real.sqrt (q : ℝ))) = F64.fin a := h
    split_ifs at h'
    obtain ⟨hr, hlt⟩ := round64_eq_fin h'
    rw [← hr]
    exact ⟨roundFin_nonneg (Real.sqrt_nonneg _), representable_roundFin (Real.sqrt_nonneg _),
      hr ▸ hlt⟩

theorem sumSquares64_nonneg {v p : GroupProfile} (hv : v.Finite) (hp : p.Finite) :
    (sumSquares64 v p).Nonneg := by
  obtain ⟨a, b, c, d, e, f, g, k, rfl⟩ := hv.exists_eq
  obtain ⟨a', b', c', d', e', f', g', k', rfl⟩ := hp.exists_eq
  have key : ∀ u w : ℚ, (F64.pow2 (ofJSNum (some u) - ofJSNum (some w))).Nonneg := fun u w =>
    F64.pow2_nonneg (round64_ne_nan (u - w))
  unfold sumSquares64
  exact ((((((((key a a').add ((key f f').mul_fin (by norm_num))).add
    ((key e e').mul_fin (by norm_num))).add ((key b b').div_fin (by norm_num))).add
    ((key c c').div_fin (by norm_num))).add ((key g g').mul_fin (by norm_num))).add
    ((key d d').div_fin (by norm_num))).add ((key k k').mul_fin (by norm_num)))

theorem distToPresence64_nonneg {x : PatientRecord} {ms : ModelStats} (hx : x.Numeric)
    (hP : ms.presenceAvg.Finite) : (distToPresence64 x ms).Nonneg :=
  (sumSquares64_nonneg (encode_finite hx) hP).sqrt

theorem distToAbsence64_nonneg {x : PatientRecord} {ms : ModelStats} (hx : x.Numeric)
    (hA : ms.absenceAvg.Finite) : (distToAbsence64 x ms).Nonneg :=
  (sumSquares64_nonneg (encode_finite hx) hA).sqrt

theorem le_roundFin_add_left {p a : ℚ} (hp : 0 ≤ p) (ha : 0 ≤ a) (hra : Representable a) :
    a ≤ roundFin (p + a) := by
  have := roundFin_mono ha (show a ≤ p + a by linarith)
  rwa [roundFin_of_representable hra] at this

theorem le_roundFin_add_right {p a : ℚ} (hp : 0 ≤ p) (ha : 0 ≤ a) (hrp : Representable p) :
    p ≤ roundFin (p + a) := by
  have := roundFin_mono hp (show p ≤ p + a by linarith)
  rwa [roundFin_of_representable hrp] at this

theorem representable_one : Representable 1 := ⟨1, 0, by norm_num, by norm_num, by norm_num⟩

theorem representable_half : Representable (1 / 2) :=
  ⟨1, -1, by norm_num, by norm_num, by norm_num⟩

/-- The quotient of a numerator by a divisor not below it is a double in the unit interval. -/
theorem div64_mem_unit {a t : ℚ} (ha : 0 ≤ a) (hat : a ≤ t) (ht : t ≠ 0) :
    ∃ r : ℚ, F64.fin a / F64.fin t = F64.fin r ∧ 0 ≤ r ∧ r ≤ 1 := by
  have htpos : 0 < t := lt_of_le_of_ne (le_trans ha hat) (Ne.symm ht)
  have h₀ : 0 ≤ a / t := div_nonneg ha htpos.le
  have h₁ : a / t ≤ 1 := (div_le_one htpos).mpr hat
  have hr₀ := roundFin_nonneg h₀
  have hr₁ := roundFin_mono h₀ h₁
  rw [roundFin_of_representable representable_one] at hr₁
  refine ⟨roundFin (a / t), ?_, hr₀, hr₁⟩
  rw [F64.fin_div_fin a ht, round64_of_roundFin_lt]
  rw [abs_of_nonneg hr₀]
  exact lt_of_le_of_lt hr₁ (by norm_num)

theorem F64.nan_add (t : F64) : F64.nan + t = F64.nan := by
  cases t <;> rfl

theorem F64.add_nan (t : F64) : t + F64.nan = F64.nan := by
  cases t <;> rfl

theorem F64.inf_add {t : F64} (ht : t.Nonneg) : F64.inf false + t = F64.inf false := by
  cases t with
  | nan => exact False.elim ht
  | inf s =>
    have hs : s = false := ht
    subst hs
    rfl
  | fin q => rfl

theorem F64.add_inf {t : F64} (ht : t.Nonneg) : t + F64.inf false = F64.inf false := by
  cases t with
  | nan => exact False.elim ht
  | inf s =>
    have hs : s = false := ht
    subst hs
    rfl
  | fin q => rfl

theorem F64.sqrt_zero : (F64.fin 0).sqrt = F64.fin 0 := by
  show (if (0 : ℚ) < 0 then F64.nan else round64 (Real.sqrt ((0 : ℚ) : ℝ))) = F64.fin 0
  rw [if_neg (lt_irrefl _), Rat.cast_zero, Real.sqrt_zero, round64_zero]

theorem F64.sqrt_one : (F64.fin 1).sqrt = F64.fin 1 := by
  show (if (1 : ℚ) < 0 then F64.nan else round64 (Real.sqrt ((1 : ℚ) : ℝ))) = F64.fin 1
  rw [if_neg (by norm_num), Rat.cast_one, Real.sqrt_one]
  have h : roundFin (1 : ℝ) = 1 := by
    have := roundFin_eq_of_near (x := (1 : ℝ)) (e := 0) (n := 2 ^ (52 : ℕ)) one_ne_zero
      (by norm_num) (Or.inr (by norm_num)) (by norm_num) (by norm_num)
    rw [this]
    norm_num
  rw [round64_of_roundFin_lt (by rw [h]; norm_num), h]

/-- One summand in which the two operands are the same finite number is zero. -/
theorem F64.pow2_sub_self (u : ℚ) : F64.pow2 (ofJSNum (some u) - ofJSNum (some u)) = F64.fin 0 := by
  show F64.pow2 (F64.fin u - F64.fin u) = F64.fin 0
  rw [F64.fin_sub_fin, sub_self, round64_zero, F64.pow2_fin, mul_zero, round64_zero]

theorem F64.zero_mul_fin (c : ℚ) : F64.fin 0 * F64.fin c = F64.fin 0 := by
  rw [F64.fin_mul_fin, zero_mul, round64_zero]

theorem F64.zero_div_fin {c : ℚ} (hc : c ≠ 0) : F64.fin 0 / F64.fin c = F64.fin 0 := by
  rw [F64.fin_div_fin 0 hc, zero_div, round64_zero]

theorem F64.zero_add_zero : F64.fin 0 + F64.fin 0 = F64.fin 0 := by
  rw [F64.fin_add_fin, add_zero, round64_zero]

theorem sumSquares64_self {v : GroupProfile} (hv : v.Finite) : sumSquares64 v v = F64.fin 0 := by
  obtain ⟨a, b, c, d, e, f, g, k, rfl⟩ := hv.exists_eq
  simp only [sumSquares64, F64.pow2_sub_self, F64.zero_mul_fin,
    F64.zero_div_fin (show (100 : ℚ) ≠ 0 by norm_num),
    F64.zero_div_fin (show (1000 : ℚ) ≠ 0 by norm_num),
    F64.zero_div_fin (show (50 : ℚ) ≠ 0 by norm_num), F64.zero_add_zero]

/-- A difference of at least `2 ^ 512` has a square that overflows. -/
theorem F64.pow2_round64_eq_inf {q : ℚ} (h : (2 : ℚ) ^ (512 : ℕ) ≤ q) :
    (round64 q).pow2 = F64.inf false := by
  have hm := roundFin_mono (show (0 : ℚ) ≤ 2 ^ (512 : ℕ) by positivity) h
  rw [roundFin_of_representable (representable_two_pow 512)] at hm
  rcases hr : round64 q with _ | s | d
  · exact absurd hr (round64_ne_nan q)
  · rfl
  · obtain ⟨hd, -⟩ := round64_eq_fin hr
    rw [F64.pow2_fin]
    apply round64_eq_inf_of_le
    rw [← hd]
    calc (2 : ℚ) ^ (1024 : ℕ) = 2 ^ (512 : ℕ) * 2 ^ (512 : ℕ) := by norm_num
      _ ≤ roundFin q * roundFin q :=
        mul_le_mul hm hm (by positivity) (le_trans (by positivity) hm)

/-- When the age of the patient exceeds the age of a finite profile by at least
`2 ^ 512`, the sum of squares overflows. -/
theorem sumSquares64_eq_inf {v p : GroupProfile} (hv : v.Finite) (hp : p.Finite) {a b : ℚ}
    (ha : v.age = some a) (hb : p.age = some b) (h : (2 : ℚ) ^ (512 : ℕ) ≤ a - b) :
    sumSquares64 v p = F64.inf false := by
  obtain ⟨a₁, b₁, c₁, d₁, e₁, f₁, g₁, k₁, rfl⟩ := hv.exists_eq
  obtain ⟨a₂, b₂, c₂, d₂, e₂, f₂, g₂, k₂, rfl⟩ := hp.exists_eq
  have ha' : a₁ = a := by simpa using ha
  have hb' : a₂ = b := by simpa using hb
  subst ha' hb'
  have key : ∀ u w : ℚ, (F64.pow2 (ofJSNum (some u) - ofJSNum (some w))).Nonneg := fun u w =>
    F64.pow2_nonneg (round64_ne_nan (u - w))
  have h₁ : F64.pow2 (ofJSNum (some a₁) - ofJSNum (some a₂)) = F64.inf false :=
    F64.pow2_round64_eq_inf h
  unfold sumSquares64
  simp only [h₁]
  rw [F64.inf_add ((key f₁ f₂).mul_fin (by norm_num)),
    F64.inf_add ((key e₁ e₂).mul_fin (by norm_num)),
    F64.inf_add ((key b₁ b₂).div_fin (by norm_num)),
    F64.inf_add ((key c₁ c₂).div_fin (by norm_num)),
    F64.inf_add ((key g₁ g₂).mul_fin (by norm_num)),
    F64.inf_add ((key d₁ d₂).div_fin (by norm_num)),
    F64.inf_add ((key k₁ k₂).mul_fin (by norm_num))]

theorem F64.sqrt_inf : (F64.inf false).sqrt = F64.inf false := rfl

/-- The score is a double in the unit interval when the distance to the absence
profile is finite. -/
theorem riskScore64_mem_unit {x : PatientRecord} {ms : ModelStats}
    (hP : (distToPresence64 x ms).Nonneg) (hA : (distToAbsence64 x ms).Nonneg)
    (hne : distToAbsence64 x ms ≠ F64.inf false) :
    ∃ r : ℚ, riskScore64 x ms = F64.fin r ∧ 0 ≤ r ∧ r ≤ 1 := by
  rcases hdA : distToAbsence64 x ms with _ | s | a
  · rw [hdA] at hA; exact False.elim hA
  · rw [hdA] at hA hne
    have hs : s = false := hA
    exact absurd (by rw [hs]) hne
  · obtain ⟨ha, hra, -⟩ := F64.sqrt_eq_fin hdA
    rcases hdP : distToPresence64 x ms with _ | s | p
    · rw [hdP] at hP; exact False.elim hP
    · rw [hdP] at hP
      have hs : s = false := hP
      subst hs
      refine ⟨0, ?_, le_rfl, zero_le_one⟩
      simp only [riskScore64, totalDist64, hdP, hdA]
      rfl
    · obtain ⟨hp, -, -⟩ := F64.sqrt_eq_fin hdP
      simp only [riskScore64, totalDist64, hdP, hdA, F64.fin_add_fin]
      rcases hr : round64 (p + a) with _ | s | t
      · exact absurd hr (round64_ne_nan _)
      · exact ⟨0, rfl, le_rfl, zero_le_one⟩
      · obtain ⟨ht, -⟩ := round64_eq_fin hr
        by_cases h0 : t = 0
        · rw [h0, if_pos rfl]
          exact ⟨0.5, rfl, by norm_num, by norm_num⟩
        · rw [if_neg (by simpa using h0)]
          exact div64_mem_unit ha (ht ▸ le_roundFin_add_left hp ha hra) h0

/-- The score is NaN when the distance to the absence profile overflows. -/
theorem riskScore64_eq_nan {x : PatientRecord} {ms : ModelStats}
    (hP : (distToPresence64 x ms).Nonneg) (hA : distToAbsence64 x ms = F64.inf false) :
    riskScore64 x ms = F64.nan := by
  have ht : totalDist64 x ms = F64.inf false := by
    rw [totalDist64, hA, F64.add_inf hP]
  rw [riskScore64, ht, hA]
  rfl

theorem F64.nan_sub (t : F64) : F64.nan - t = F64.nan := by
  cases t <;> rfl

theorem F64.sub_nan (t : F64) : t - F64.nan = F64.nan := by
  cases t <;> rfl

theorem F64.nan_mul (t : F64) : F64.nan * t = F64.nan := by
  cases t <;> rfl

theorem F64.nan_div (t : F64) : F64.nan / t = F64.nan := by
  cases t <;> rfl

theorem F64.pow2_nan : F64.nan.pow2 = F64.nan := rfl

theorem F64.sqrt_nan : F64.nan.sqrt = F64.nan := rfl

/-- A NaN among the locals makes the sum of squares NaN. -/
theorem finite_of_sumSquares64_ne_nan {v p : GroupProfile} (h : sumSquares64 v p ≠ F64.nan) :
    v.Finite := by
  obtain ⟨a, b, c, d, e, f, g, k⟩ := v
  rcases a with _ | a
  · exact absurd (by simp [sumSquares64, ofJSNum, F64.nan_sub, F64.pow2_nan, F64.nan_mul,
      F64.nan_div, F64.nan_add, F64.add_nan]) h
  rcases b with _ | b
  · exact absurd (by simp [sumSquares64, ofJSNum, F64.nan_sub, F64.pow2_nan, F64.nan_mul,
      F64.nan_div, F64.nan_add, F64.add_nan]) h
  rcases c with _ | c
  · exact absurd (by simp [sumSquares64, ofJSNum, F64.nan_sub, F64.pow2_nan, F64.nan_mul,
      F64.nan_div, F64.nan_add, F64.add_nan]) h
  rcases d with _ | d
  · exact absurd (by simp [sumSquares64, ofJSNum, F64.nan_sub, F64.pow2_nan, F64.nan_mul,
      F64.nan_div, F64.nan_add, F64.add_nan]) h
  rcases e with _ | e
  · exact absurd (by simp [sumSquares64, ofJSNum, F64.nan_sub, F64.pow2_nan, F64.nan_mul,
      F64.nan_div, F64.nan_add, F64.add_nan]) h
  rcases f with _ | f
  · exact absurd (by simp [sumSquares64, ofJSNum, F64.nan_sub, F64.pow2_nan, F64.nan_mul,
      F64.nan_div, F64.nan_add, F64.add_nan]) h
  rcases g with _ | g
  · exact absurd (by simp [sumSquares64, ofJSNum, F64.nan_sub, F64.pow2_nan, F64.nan_mul,
      F64.nan_div, F64.nan_add, F64.add_nan]) h
  rcases k with _ | k
  · exact absurd (by simp [sumSquares64, ofJSNum, F64.nan_sub, F64.pow2_nan, F64.nan_mul,
      F64.nan_div, F64.nan_add, F64.add_nan]) h
  simp [GroupProfile.Finite]

theorem distToPresence64_eq_zero {x : PatientRecord} {ms : ModelStats}
    (h : encode x = ms.presenceAvg) (hv : (encode x).Finite) :
    distToPresence64 x ms = F64.fin 0 := by
  rw [distToPresence64, ← h, sumSquares64_self hv, F64.sqrt_zero]

theorem distToAbsence64_eq_zero {x : PatientRecord} {ms : ModelStats}
    (h : encode x = ms.absenceAvg) (hv : (encode x).Finite) :
    distToAbsence64 x ms = F64.fin 0 := by
  rw [distToAbsence64, ← h, sumSquares64_self hv, F64.sqrt_zero]

theorem distToAbsence64_hugeAge (ms : ModelStats)
    (hA : ms.absenceAvg = rowProfile scenarioAbsenceRow ∨
      ms.absenceAvg = rowProfile scenarioPresenceRow) :
    distToAbsence64 hugeAgePatient ms = F64.inf false := by
  rw [distToAbsence64]
  rcases hA with h | h
  · rw [h, sumSquares64_eq_inf (a := 2 ^ 600) (b := 40) (by decide) (by decide) rfl rfl
      (by norm_num)]
    rfl
  · rw [h, sumSquares64_eq_inf (a := 2 ^ 600) (b := 60) (by decide) (by decide) rfl rfl
      (by norm_num)]
    rfl

/-! ## The claims settled in the binary64 reading -/

/-- C1, counterexample. The patient of the specification with the age replaced
by the double `2 ^ 600`, scored against the two-row statistics of the
specification: all inputs are finite numbers, the squared age difference
overflows, both distances are infinite and the score is NaN, not a number of
the unit interval. -/
theorem overflow_score_nan_counterexample :
    hugeAgePatient.Numeric ∧ scenarioStats.presenceAvg.Finite ∧
    scenarioStats.absenceAvg.Finite ∧ Representable (2 ^ 600) ∧
    distToAbsence64 hugeAgePatient scenarioStats = F64.inf false ∧
    riskScore64 hugeAgePatient scenarioStats = F64.nan := by
  have hA := distToAbsence64_hugeAge scenarioStats (Or.inl rfl)
  exact ⟨by decide, by decide, by decide, representable_two_pow 600, hA,
    riskScore64_eq_nan (distToPresence64_nonneg (by decide) (by decide)) hA⟩

/-- C1, amended. For every patient record with finite numeric fields: on the
fallback path `riskScore` returns a number `r` with `0 ≤ r ≤ 1`; on the primary
path with finite profiles, the double-precision score is a number `r` with
`0 ≤ r ≤ 1` whenever the computed distance to the absence profile has not
overflowed to Infinity, and it is NaN when that distance is Infinity. -/
theorem riskScore_mem_unit_interval (x : PatientRecord) (hx : x.Numeric) :
    (∃ r : ℝ, riskScore x none = some r ∧ 0 ≤ r ∧ r ≤ 1) ∧
    (∀ ms : ModelStats, ms.presenceAvg.Finite → ms.absenceAvg.Finite →
      (distToAbsence64 x ms ≠ F64.inf false →
        ∃ r : ℚ, riskScore64 x ms = F64.fin r ∧ 0 ≤ r ∧ r ≤ 1) ∧
      (distToAbsence64 x ms = F64.inf false → riskScore64 x ms = F64.nan)) := by
  constructor
  · obtain ⟨z, hz⟩ := fallbackZ_isSome hx
    exact ⟨_, riskScore_none_eq hz, le_min zero_le_one (le_max_left _ _), min_le_left _ _⟩
  · intro ms hP hA
    exact ⟨riskScore64_mem_unit (distToPresence64_nonneg hx hP) (distToAbsence64_nonneg hx hA),
      riskScore64_eq_nan (distToPresence64_nonneg hx hP)⟩

/-- Witness of C1, amended: the patient of the specification, on the fallback
path and against statistics whose two profiles are the first row. -/
theorem riskScore_mem_unit_interval_witness :
    (∃ r : ℝ, riskScore scenarioPatient none = some r ∧ 0 ≤ r ∧ r ≤ 1) ∧
    (∃ r : ℚ, riskScore64 scenarioPatient identicalStats = F64.fin r ∧ 0 ≤ r ∧ r ≤ 1) :=
  ⟨(riskScore_mem_unit_interval scenarioPatient (by decide)).1,
   ((riskScore_mem_unit_interval scenarioPatient (by decide)).2 identicalStats
      (by decide) (by decide)).1
      (by rw [distToAbsence64_eq_zero (by decide) (by decide)]; simp)⟩

/-- C2, counterexample. Statistics whose two profiles are identical and finite,
and the patient with age `2 ^ 600`: both distances overflow and the score is
NaN, not 0.5. -/
theorem identical_profiles_nan_counterexample :
    identicalStats.presenceAvg = identicalStats.absenceAvg ∧
    identicalStats.presenceAvg.Finite ∧ hugeAgePatient.Numeric ∧
    riskScore64 hugeAgePatient identicalStats = F64.nan :=
  ⟨rfl, by decide, by decide,
    riskScore64_eq_nan (distToPresence64_nonneg (by decide) (by decide))
      (distToAbsence64_hugeAge identicalStats (Or.inr rfl))⟩

/-- C2, amended. When the presence profile and the absence profile agree on all
eight fields, the double-precision primary path returns exactly 0.5 for every
patient record for which the computed total distance is a finite number,
whether the common distance is zero or not. -/
theorem riskScore_eq_half_of_profiles_agree (x : PatientRecord) (ms : ModelStats)
    (hagree : ms.presenceAvg = ms.absenceAvg) (t : ℚ) (ht : totalDist64 x ms = F64.fin t) :
    riskScore64 x ms = F64.fin 0.5 := by
  have hd : distToPresence64 x ms = distToAbsence64 x ms := by
    rw [distToPresence64, distToAbsence64, hagree]
  rcases hdA : distToAbsence64 x ms with _ | s | a
  · rw [totalDist64, hd, hdA, F64.nan_add] at ht
    cases ht
  · rw [totalDist64, hd, hdA] at ht
    have : F64.inf s + F64.inf s = F64.inf s := by
      show (if s = s then F64.inf s else F64.nan) = _
      rw [if_pos rfl]
    rw [this] at ht
    cases ht
  · obtain ⟨-, hra, -⟩ := F64.sqrt_eq_fin hdA
    have ht' := ht
    rw [totalDist64, hd, hdA, F64.fin_add_fin] at ht'
    obtain ⟨hr, -⟩ := round64_eq_fin ht'
    rw [roundFin_of_representable (representable_two_mul hra)] at hr
    rw [riskScore64, ht, hdA]
    by_cases h0 : t = 0
    · rw [h0, if_pos rfl]
    · rw [if_neg (by simpa using h0), F64.fin_div_fin a h0, ← hr]
      have ha : a ≠ 0 := fun h => h0 (by rw [← hr, h, add_zero])
      have : a / (a + a) = 1 / 2 := by
        rw [div_eq_iff (by rw [hr]; exact h0)]
        ring
      rw [this, round64_of_representable representable_half
        (by rw [abs_of_nonneg (by norm_num)]; norm_num)]
      norm_num

theorem F64.pow2_eq_fin {d : F64} {s : ℚ} (h : d.pow2 = F64.fin s) :
    0 ≤ s ∧ Representable s ∧ |s| < (2 : ℚ) ^ (1024 : ℕ) := by
  cases d with
  | nan => cases h
  | inf b => cases h
  | fin q =>
    obtain ⟨hr, hlt⟩ := round64_eq_fin (show round64 (q * q) = F64.fin s from h)
    rw [← hr]
    exact ⟨roundFin_nonneg (mul_self_nonneg q), representable_roundFin (mul_self_nonneg q),
      hr ▸ hlt⟩

theorem F64.fin_add_zero {s : ℚ} (hrep : Representable s) (hlt : |s| < (2 : ℚ) ^ (1024 : ℕ)) :
    F64.fin s + F64.fin 0 = F64.fin s := by
  rw [F64.fin_add_fin, add_zero, round64_of_representable hrep hlt]

/-- The sum of squares when the locals and the profile differ in the age only. -/
theorem sumSquares64_of_age {a b bp chol maxHR cp sex fbs exang s : ℚ}
    (hs : F64.pow2 (F64.fin a - F64.fin b) = F64.fin s) :
    sumSquares64
      ⟨some a, some bp, some chol, some maxHR, some cp, some sex, some fbs, some exang⟩
      ⟨some b, some bp, some chol, some maxHR, some cp, some sex, some fbs, some exang⟩ =
      F64.fin s := by
  obtain ⟨-, hrep, hlt⟩ := F64.pow2_eq_fin hs
  have hs' : F64.pow2 (ofJSNum (some a) - ofJSNum (some b)) = F64.fin s := hs
  simp only [sumSquares64, hs', F64.pow2_sub_self, F64.zero_mul_fin,
    F64.zero_div_fin (show (100 : ℚ) ≠ 0 by norm_num),
    F64.zero_div_fin (show (1000 : ℚ) ≠ 0 by norm_num),
    F64.zero_div_fin (show (50 : ℚ) ≠ 0 by norm_num), F64.fin_add_zero hrep hlt]

theorem round64_one : round64 (1 : ℚ) = F64.fin 1 :=
  round64_of_representable representable_one (by norm_num)

theorem round64_two : round64 (2 : ℚ) = F64.fin 2 :=
  round64_of_representable ⟨1, 1, by norm_num, by norm_num, by norm_num⟩ (by norm_num)

/-- The patient of the specification one year older than the first row is at
distance 1 from it. -/
theorem sumSquares64_age_61 :
    sumSquares64 (encode { scenarioPatient with age := some 61 })
      (rowProfile scenarioPresenceRow) = F64.fin 1 := by
  have hv : encode { scenarioPatient with age := some 61 } =
      ⟨some 61, some 150, some 280, some 120, some 4, some 1, some 1, some 1⟩ := by decide
  have hp : rowProfile scenarioPresenceRow =
      ⟨some 60, some 150, some 280, some 120, some 4, some 1, some 1, some 1⟩ := by decide
  rw [hv, hp]
  apply sumSquares64_of_age
  rw [F64.fin_sub_fin, show (61 : ℚ) - 60 = 1 by norm_num, round64_one, F64.pow2_fin,
    one_mul, round64_one]

/-- Witness of C2, amended: identical profiles, the patient of the
specification at distance zero and the same patient one year older at distance
one. -/
theorem riskScore_eq_half_of_profiles_agree_witness :
    riskScore64 scenarioPatient identicalStats = F64.fin 0.5 ∧
    riskScore64 { scenarioPatient with age := some 61 } identicalStats = F64.fin 0.5 :=
  ⟨riskScore_eq_half_of_profiles_agree scenarioPatient identicalStats rfl 0 (by
      rw [totalDist64, distToPresence64_eq_zero (by decide) (by decide),
        distToAbsence64_eq_zero (by decide) (by decide), F64.zero_add_zero]),
   riskScore_eq_half_of_profiles_agree _ identicalStats rfl 2 (by
      have h : F64.sqrt (sumSquares64 (encode { scenarioPatient with age := some 61 })
          (rowProfile scenarioPresenceRow)) = F64.fin 1 := by
        rw [sumSquares64_age_61, F64.sqrt_one]
      show F64.sqrt (sumSquares64 (encode { scenarioPatient with age := some 61 })
          (rowProfile scenarioPresenceRow)) + F64.sqrt (sumSquares64
          (encode { scenarioPatient with age := some 61 })
          (rowProfile scenarioPresenceRow)) = F64.fin 2
      rw [h, F64.fin_add_fin, show (1 : ℚ) + 1 = 2 by norm_num, round64_two])⟩

/-- C3, counterexample. The patient with age `2 ^ 600` scored against
statistics whose presence profile is its own encoded vector and whose absence
profile is the second row of the specification: the distance to the absence
profile is not zero (it is Infinity) and the score is NaN, not 1. -/
theorem encode_eq_presence_nan_counterexample :
    encode hugeAgePatient = hugeAgeStats.presenceAvg ∧
    distToPresence64 hugeAgePatient hugeAgeStats = F64.fin 0 ∧
    distToAbsence64 hugeAgePatient hugeAgeStats = F64.inf false ∧
    riskScore64 hugeAgePatient hugeAgeStats = F64.nan := by
  have hP : distToPresence64 hugeAgePatient hugeAgeStats = F64.fin 0 :=
    distToPresence64_eq_zero rfl (by decide)
  have hA := distToAbsence64_hugeAge hugeAgeStats (Or.inl rfl)
  exact ⟨rfl, hP, hA, riskScore64_eq_nan (by rw [hP]; exact le_refl (0 : ℚ)) hA⟩

/-- C3, amended. A patient whose encoded vector equals the presence profile
field for field and whose computed distance to the absence profile is a finite
non-zero number gets the score exactly 1 in double precision. -/
theorem riskScore_eq_one_of_encode_eq_presence (x : PatientRecord) (ms : ModelStats) (a : ℚ)
    (heq : encode x = ms.presenceAvg) (hA : distToAbsence64 x ms = F64.fin a) (hne : a ≠ 0) :
    riskScore64 x ms = F64.fin 1 := by
  have hv : (encode x).Finite := by
    apply finite_of_sumSquares64_ne_nan (p := ms.absenceAvg)
    intro h
    rw [distToAbsence64, h, F64.sqrt_nan] at hA
    cases hA
  obtain ⟨-, hra, hlt⟩ := F64.sqrt_eq_fin hA
  have ht : totalDist64 x ms = F64.fin a := by
    rw [totalDist64, distToPresence64_eq_zero heq hv, hA, F64.fin_add_fin, zero_add,
      round64_of_representable hra hlt]
  rw [riskScore64, ht, hA, if_neg (by simpa using hne), F64.fin_div_fin a hne, div_self hne,
    round64_one]

theorem round64_intCast (z : ℤ) (h : |z| < 2 ^ (53 : ℕ)) : round64 ((z : ℚ)) = F64.fin z := by
  apply round64_of_representable ⟨z, 0, h, by norm_num, by simp⟩
  have : ((|z| : ℤ) : ℚ) < ((2 ^ (53 : ℕ) : ℤ) : ℚ) := Int.cast_lt.mpr h
  rw [Int.cast_abs] at this
  exact lt_trans this (by norm_num)

theorem round64_ofNat (n : ℕ) [n.AtLeastTwo] (h : n < 2 ^ 53) :
    round64 (OfNat.ofNat n : ℚ) = F64.fin (OfNat.ofNat n) := by
  have := round64_intCast (n : ℤ) (by rw [abs_of_nonneg (by positivity)]; exact_mod_cast h)
  simpa using this

theorem round64_neg_ofNat (n : ℕ) [n.AtLeastTwo] (h : n < 2 ^ 53) :
    round64 (-(OfNat.ofNat n) : ℚ) = F64.fin (-(OfNat.ofNat n)) := by
  have := round64_intCast (-(n : ℤ)) (by
    rw [abs_neg, abs_of_nonneg (by positivity)]; exact_mod_cast h)
  simpa using this

/-- The sum of squares of the two-row scenario of the specification. -/
theorem sumSquares64_scenario_absence :
    sumSquares64 (encode scenarioPatient) (rowProfile scenarioAbsenceRow) = F64.fin 641 := by
  have hv : encode scenarioPatient =
      ⟨some 60, some 150, some 280, some 120, some 4, some 1, some 1, some 1⟩ := by decide
  have hp : rowProfile scenarioAbsenceRow =
      ⟨some 40, some 110, some 180, some 170, some 1, some 0, some 0, some 0⟩ := by decide
  have r20 : round64 (20 : ℚ) = F64.fin 20 := by
    simpa using round64_intCast 20 (by norm_num)
  have r400 : round64 (400 : ℚ) = F64.fin 400 := by
    simpa using round64_intCast 400 (by norm_num)
  have r3 : round64 (3 : ℚ) = F64.fin 3 := by
    simpa using round64_intCast 3 (by norm_num)
  have r9 : round64 (9 : ℚ) = F64.fin 9 := by
    simpa using round64_intCast 9 (by norm_num)
  have r135 : round64 (135 : ℚ) = F64.fin 135 := by
    simpa using round64_intCast 135 (by norm_num)
  have r40 : round64 (40 : ℚ) = F64.fin 40 := by
    simpa using round64_intCast 40 (by norm_num)
  have r1600 : round64 (1600 : ℚ) = F64.fin 1600 := by
    simpa using round64_intCast 1600 (by norm_num)
  have r16 : round64 (16 : ℚ) = F64.fin 16 := by
    simpa using round64_intCast 16 (by norm_num)
  have r100 : round64 (100 : ℚ) = F64.fin 100 := by
    simpa using round64_intCast 100 (by norm_num)
  have r10000 : round64 (10000 : ℚ) = F64.fin 10000 := by
    simpa using round64_intCast 10000 (by norm_num)
  have r10 : round64 (10 : ℚ) = F64.fin 10 := by
    simpa using round64_intCast 10 (by norm_num)
  have r2500 : round64 (2500 : ℚ) = F64.fin 2500 := by
    simpa using round64_intCast 2500 (by norm_num)
  have r50 : round64 (50 : ℚ) = F64.fin 50 := by
    simpa using round64_intCast 50 (by norm_num)
  have r8 : round64 (8 : ℚ) = F64.fin 8 := by
    simpa using round64_intCast 8 (by norm_num)
  have r12 : round64 (12 : ℚ) = F64.fin 12 := by
    simpa using round64_intCast 12 (by norm_num)
  have r410 : round64 (410 : ℚ) = F64.fin 410 := by
    simpa using round64_intCast 410 (by norm_num)
  have r545 : round64 (545 : ℚ) = F64.fin 545 := by
    simpa using round64_intCast 545 (by norm_num)
  have r561 : round64 (561 : ℚ) = F64.fin 561 := by
    simpa using round64_intCast 561 (by norm_num)
  have r571 : round64 (571 : ℚ) = F64.fin 571 := by
    simpa using round64_intCast 571 (by norm_num)
  have r579 : round64 (579 : ℚ) = F64.fin 579 := by
    simpa using round64_intCast 579 (by norm_num)
  have r629 : round64 (629 : ℚ) = F64.fin 629 := by
    simpa using round64_intCast 629 (by norm_num)
  have r641 : round64 (641 : ℚ) = F64.fin 641 := by
    simpa using round64_intCast 641 (by norm_num)
  have rneg : round64 (-50 : ℚ) = F64.fin (-50) := by
    simpa using round64_intCast (-50) (by norm_num)
  rw [hv, hp]
  norm_num [sumSquares64, ofJSNum, F64.fin_sub_fin, F64.pow2_fin, F64.fin_mul_fin,
    F64.fin_add_fin, F64.fin_div_fin, round64_one, rneg, r20, r400, r3, r9, r135, r40, r1600,
    r16, r100, r10000, r10, r2500, r50, r8, r12, r410, r545, r561, r571, r579, r629, r641]

theorem roundFin_two_zpow {α : Type} [LinearOrderedField α] [FloorRing α] (e : ℤ)
    (he : -1022 ≤ e) : roundFin ((2 : α) ^ e) = (2 : ℚ) ^ e := by
  have hpos : (0 : α) < 2 ^ e := by positivity
  have h := roundFin_eq_of_near (x := (2 : α) ^ e) (e := e) (n := 2 ^ (52 : ℕ)) hpos.ne' he
    (Or.inr (by rw [abs_of_pos hpos]))
    (by rw [abs_of_pos hpos]; exact zpow_lt_zpow_right₀ (by norm_num) (by omega))
    (by
      simp only [Int.cast_pow, Int.cast_ofNat]
      nth_rewrite 1 [two_zpow_eq e]
      rw [mul_div_assoc, div_self (by positivity), mul_one, sub_self, abs_zero]
      norm_num)
  rw [h, two_zpow_eq (α := ℚ) e]
  simp only [Int.cast_pow, Int.cast_ofNat]

/-- The square root of a double between 1 and `2 ^ 200` is a double that is at least 1. -/
theorem F64.sqrt_fin_ge_one {s : ℚ} (h₁ : 1 ≤ s) (h₂ : s ≤ (2 : ℚ) ^ (200 : ℕ)) :
    ∃ a : ℚ, (F64.fin s).sqrt = F64.fin a ∧ 1 ≤ a := by
  have hs : (1 : ℝ) ≤ (s : ℝ) := by exact_mod_cast h₁
  have hs' : (s : ℝ) ≤ (2 : ℝ) ^ (200 : ℤ) := by
    have : (s : ℝ) ≤ ((2 ^ (200 : ℕ) : ℚ) : ℝ) := by exact_mod_cast h₂
    simpa using this
  have hlo : (1 : ℝ) ≤ Real.sqrt (s : ℝ) := by
    rw [Real.le_sqrt' one_pos]
    simpa using hs
  have hhi : Real.sqrt (s : ℝ) ≤ (2 : ℝ) ^ (200 : ℤ) := by
    refine le_trans ?_ hs'
    rw [Real.sqrt_le_left (by linarith)]
    nlinarith
  have h1 : roundFin (1 : ℝ) = 1 := by
    have := roundFin_two_zpow (α := ℝ) 0 (by norm_num)
    simpa using this
  have ha₁ : 1 ≤ roundFin (Real.sqrt (s : ℝ)) := by
    have := roundFin_mono zero_le_one hlo
    rwa [h1] at this
  have ha₂ : roundFin (Real.sqrt (s : ℝ)) ≤ (2 : ℚ) ^ (200 : ℤ) := by
    have := roundFin_mono (Real.sqrt_nonneg _) hhi
    rwa [roundFin_two_zpow 200 (by norm_num)] at this
  refine ⟨roundFin (Real.sqrt (s : ℝ)), ?_, ha₁⟩
  show (if s < 0 then F64.nan else round64 (Real.sqrt (s : ℝ))) = _
  rw [if_neg (by linarith), round64_of_roundFin_lt]
  rw [abs_of_nonneg (by linarith)]
  exact lt_of_le_of_lt ha₂ (by norm_num)

/-- Witness of C3, amended: the two-row table and the patient of the
specification; the sum of squares towards the absence profile is 641. -/
theorem riskScore_eq_one_of_encode_eq_presence_witness :
    riskScore64 scenarioPatient scenarioStats = F64.fin 1 := by
  obtain ⟨a, ha, h1⟩ := F64.sqrt_fin_ge_one (s := 641) (by norm_num) (by norm_num)
  exact riskScore_eq_one_of_encode_eq_presence scenarioPatient scenarioStats a (by decide)
    (by rw [distToAbsence64]; exact sumSquares64_scenario_absence ▸ ha) (by linarith)

theorem roundFin_add_bounds {p a : ℚ} (hp : 0 ≤ p) (ha : 0 ≤ a) (hra : Representable a) :
    (a ≤ p → a + a ≤ roundFin (p + a)) ∧ (p ≤ a → roundFin (p + a) ≤ a + a) := by
  have h2 := roundFin_of_representable (representable_two_mul hra)
  constructor
  · intro h
    have := roundFin_mono (show 0 ≤ a + a by linarith) (show a + a ≤ p + a by linarith)
    rwa [h2] at this
  · intro h
    have := roundFin_mono (show 0 ≤ p + a by linarith) (show p + a ≤ a + a by linarith)
    rwa [h2] at this

/-- C9, amended. When the two computed distances `p` (to the presence profile)
and `a` (to the absence profile) and their computed sum are finite numbers, the
double-precision score `s` is a number such that: `s` exceeds 0.5 only if
`p < a`; `s` is below 0.5 only if `a < p`; `p < a` gives `s` at least 0.5; and
`a < p` gives `s` at most 0.5. -/
theorem riskScore_half_of_dist_lt (x : PatientRecord) (ms : ModelStats) (p a t : ℚ)
    (hP : distToPresence64 x ms = F64.fin p) (hA : distToAbsence64 x ms = F64.fin a)
    (hT : totalDist64 x ms = F64.fin t) :
    ∃ s : ℚ, riskScore64 x ms = F64.fin s ∧
      (1 / 2 < s → p < a) ∧ (s < 1 / 2 → a < p) ∧ (p < a → 1 / 2 ≤ s) ∧ (a < p → s ≤ 1 / 2) := by
  obtain ⟨hp, hrp, -⟩ := F64.sqrt_eq_fin hP
  obtain ⟨ha, hra, -⟩ := F64.sqrt_eq_fin hA
  have hT' := hT
  rw [totalDist64, hP, hA, F64.fin_add_fin] at hT'
  obtain ⟨ht, -⟩ := round64_eq_fin hT'
  obtain ⟨hge, hle⟩ := roundFin_add_bounds hp ha hra
  rw [ht] at hge hle
  have hta : a ≤ t := ht ▸ le_roundFin_add_left hp ha hra
  have htp : p ≤ t := ht ▸ le_roundFin_add_right hp ha hrp
  by_cases h0 : t = 0
  · refine ⟨1 / 2, ?_, fun h => absurd h (lt_irrefl _), fun h => absurd h (lt_irrefl _),
      fun _ => le_rfl, fun _ => le_rfl⟩
    rw [riskScore64, hT, h0, if_pos rfl]
    norm_num
  · have htpos : 0 < t := lt_of_le_of_ne (le_trans ha hta) (Ne.symm h0)
    have hq₀ : 0 ≤ a / t := div_nonneg ha htpos.le
    have hq₁ : a / t ≤ 1 := (div_le_one htpos).mpr hta
    have hr₀ := roundFin_nonneg hq₀
    have hr₁ := roundFin_mono hq₀ hq₁
    rw [roundFin_of_representable representable_one] at hr₁
    have hhalf := roundFin_of_representable representable_half
    have hA' : a ≤ p → roundFin (a / t) ≤ 1 / 2 := by
      intro h
      have hle' : a / t ≤ 1 / 2 := by
        rw [div_le_iff₀ htpos]
        linarith [hge h]
      have := roundFin_mono hq₀ hle'
      rwa [hhalf] at this
    have hB' : p ≤ a → 1 / 2 ≤ roundFin (a / t) := by
      intro h
      have hge' : 1 / 2 ≤ a / t := by
        rw [le_div_iff₀ htpos]
        linarith [hle h]
      have := roundFin_mono (by norm_num) hge'
      rwa [hhalf] at this
    refine ⟨roundFin (a / t), ?_, ?_, ?_, ?_, ?_⟩
    · rw [riskScore64, hT, hA, if_neg (by simpa using h0), F64.fin_div_fin a h0,
        round64_of_roundFin_lt]
      rw [abs_of_nonneg hr₀]
      exact lt_of_le_of_lt hr₁ (by norm_num)
    · intro h
      by_contra hcon
      exact absurd (hA' (not_lt.mp hcon)) (not_le.mpr h)
    · intro h
      by_contra hcon
      exact absurd (hB' (not_lt.mp hcon)) (not_le.mpr h)
    · intro h
      exact hB' h.le
    · intro h
      exact hA' h.le

/-- Witness of C9, amended: the two-row table and the patient of the
specification, at distance zero from the presence profile. -/
theorem riskScore_half_of_dist_lt_witness :
    ∃ a s : ℚ, distToAbsence64 scenarioPatient scenarioStats = F64.fin a ∧
      riskScore64 scenarioPatient scenarioStats = F64.fin s ∧
      ((0 : ℚ) < a → 1 / 2 ≤ s) := by
  obtain ⟨a, ha, -⟩ := F64.sqrt_fin_ge_one (s := 641) (by norm_num) (by norm_num)
  have hA : distToAbsence64 scenarioPatient scenarioStats = F64.fin a := by
    rw [distToAbsence64]
    exact sumSquares64_scenario_absence ▸ ha
  have hP : distToPresence64 scenarioPatient scenarioStats = F64.fin 0 :=
    distToPresence64_eq_zero (by decide) (by decide)
  obtain ⟨-, hra, hlt⟩ := F64.sqrt_eq_fin hA
  obtain ⟨s, hs, -, -, h3, -⟩ := riskScore_half_of_dist_lt scenarioPatient scenarioStats 0 a a
    hP hA (by rw [totalDist64, hP, hA, F64.fin_add_fin, zero_add,
      round64_of_representable hra hlt])
  exact ⟨a, s, hA, hs, h3⟩

/-- C10, amended. With a finite presence profile: when the encoded patient
vector equals both profiles field for field, the computed `totalDist` is
exactly zero and 0.5 is returned; `totalDist` is exactly zero if and only if
both computed distances are exactly zero; and in every case either `totalDist`
is zero and 0.5 is returned without a division, or `totalDist` is not zero and
the score is `distToAbsence / totalDist`. -/
theorem totalDist_eq_zero_of_encode_eq (x : PatientRecord) (ms : ModelStats)
    (hP : ms.presenceAvg.Finite) :
    (encode x = ms.presenceAvg ∧ encode x = ms.absenceAvg →
      totalDist64 x ms = F64.fin 0 ∧ riskScore64 x ms = F64.fin 0.5) ∧
    (totalDist64 x ms = F64.fin 0 ↔
      distToPresence64 x ms = F64.fin 0 ∧ distToAbsence64 x ms = F64.fin 0) ∧
    ((totalDist64 x ms = F64.fin 0 ∧ riskScore64 x ms = F64.fin 0.5) ∨
      (totalDist64 x ms ≠ F64.fin 0 ∧
        riskScore64 x ms = distToAbsence64 x ms / totalDist64 x ms)) := by
  have hiff : totalDist64 x ms = F64.fin 0 ↔
      distToPresence64 x ms = F64.fin 0 ∧ distToAbsence64 x ms = F64.fin 0 := by
    constructor
    · intro h
      rcases hdP : distToPresence64 x ms with _ | s | p
      · rw [totalDist64, hdP, F64.nan_add] at h
        cases h
      · rcases hdA : distToAbsence64 x ms with _ | s' | a
        · rw [totalDist64, hdA, F64.add_nan] at h
          cases h
        · rw [totalDist64, hdP, hdA] at h
          have h' : (if s = s' then F64.inf s else F64.nan) = F64.fin 0 := h
          split_ifs at h'
        · rw [totalDist64, hdP, hdA] at h
          cases h
      · rcases hdA : distToAbsence64 x ms with _ | s' | a
        · rw [totalDist64, hdA, F64.add_nan] at h
          cases h
        · rw [totalDist64, hdP, hdA] at h
          cases h
        · obtain ⟨hp, hrp, -⟩ := F64.sqrt_eq_fin hdP
          obtain ⟨ha, hra, -⟩ := F64.sqrt_eq_fin hdA
          rw [totalDist64, hdP, hdA, F64.fin_add_fin] at h
          obtain ⟨hr, -⟩ := round64_eq_fin h
          have h₁ := le_roundFin_add_left hp ha hra
          have h₂ := le_roundFin_add_right hp ha hrp
          rw [hr] at h₁ h₂
          rw [le_antisymm h₂ hp, le_antisymm h₁ ha]
          exact ⟨rfl, rfl⟩
    · rintro ⟨h₁, h₂⟩
      rw [totalDist64, h₁, h₂, F64.zero_add_zero]
  refine ⟨?_, hiff, ?_⟩
  · rintro ⟨h₁, h₂⟩
    have hv : (encode x).Finite := h₁ ▸ hP
    have ht : totalDist64 x ms = F64.fin 0 :=
      hiff.mpr ⟨distToPresence64_eq_zero h₁ hv, distToAbsence64_eq_zero h₂ hv⟩
    exact ⟨ht, by rw [riskScore64, ht, if_pos rfl]⟩
  · by_cases h : totalDist64 x ms = F64.fin 0
    · exact Or.inl ⟨h, by rw [riskScore64, if_pos h]⟩
    · exact Or.inr ⟨h, by rw [riskScore64, if_neg h]⟩

/-- Witness of C10, amended: the patient of the specification against
statistics whose two profiles are the first row. -/
theorem totalDist_eq_zero_of_encode_eq_witness :
    totalDist64 scenarioPatient identicalStats = F64.fin 0 ∧
    riskScore64 scenarioPatient identicalStats = F64.fin 0.5 :=
  (totalDist_eq_zero_of_encode_eq scenarioPatient identicalStats (by decide)).1
    ⟨by decide, by decide⟩

theorem round64_pred_one : round64 ((1 : ℚ) - 1 / 2 ^ 53) = F64.fin (1 - 1 / 2 ^ 53) :=
  round64_of_representable ⟨2 ^ (53 : ℕ) - 1, -53, by norm_num, by norm_num, by norm_num⟩
    (by rw [abs_of_nonneg (by norm_num)]; norm_num)

/-- The square of the double below 1 rounds to the double `1 - 2 ^ (-52)`. -/
theorem round64_sq_pred_one :
    round64 (((1 : ℚ) - 1 / 2 ^ 53) * (1 - 1 / 2 ^ 53)) = F64.fin (1 - 1 / 2 ^ 52) := by
  have h := roundFin_eq_of_near (x := ((1 : ℚ) - 1 / 2 ^ 53) * (1 - 1 / 2 ^ 53)) (e := -1)
    (n := 2 ^ (53 : ℕ) - 2) (by norm_num) (by norm_num)
    (Or.inr (by rw [abs_of_nonneg (by norm_num)]; norm_num))
    (by rw [abs_of_nonneg (by norm_num)]; norm_num)
    (by norm_num [abs_lt])
  have hv : roundFin (((1 : ℚ) - 1 / 2 ^ 53) * (1 - 1 / 2 ^ 53)) = 1 - 1 / 2 ^ 52 := by
    rw [h]; norm_num
  rw [round64_of_roundFin_lt (by rw [hv, abs_of_nonneg (by norm_num)]; norm_num), hv]

/-- The square root of the double `1 - 2 ^ (-52)` rounds to the double below 1. -/
theorem sqrt64_pred : (F64.fin (1 - 1 / 2 ^ 52)).sqrt = F64.fin (1 - 1 / 2 ^ 53) := by
  have hlo : (1 : ℝ) - 3 / 2 ^ 54 < Real.sqrt (((1 - 1 / 2 ^ 52 : ℚ)) : ℝ) := by
    rw [Real.lt_sqrt (by norm_num)]
    push_cast
    norm_num
  have hhi : Real.sqrt (((1 - 1 / 2 ^ 52 : ℚ)) : ℝ) < (1 : ℝ) - 1 / 2 ^ 54 := by
    rw [Real.sqrt_lt' (by norm_num)]
    push_cast
    norm_num
  have hpos : (0 : ℝ) < Real.sqrt (((1 - 1 / 2 ^ 52 : ℚ)) : ℝ) := lt_trans (by norm_num) hlo
  have h := roundFin_eq_of_near (x := Real.sqrt (((1 - 1 / 2 ^ 52 : ℚ)) : ℝ)) (e := -1)
    (n := 2 ^ (53 : ℕ) - 1) hpos.ne' (by norm_num)
    (Or.inr (by rw [abs_of_pos hpos]; exact le_trans (by norm_num) hlo.le))
    (by rw [abs_of_pos hpos]; exact lt_trans hhi (by norm_num))
    (by
      rw [abs_lt]
      constructor
      · rw [lt_sub_iff_add_lt, lt_div_iff₀ (by positivity)]
        refine lt_of_le_of_lt ?_ hlo
        norm_num
      · rw [sub_lt_iff_lt_add, div_lt_iff₀ (by positivity)]
        refine lt_of_lt_of_le hhi ?_
        norm_num)
  have hv : roundFin (Real.sqrt (((1 - 1 / 2 ^ 52 : ℚ)) : ℝ)) = 1 - 1 / 2 ^ 53 := by
    rw [h]; norm_num
  show (if (1 - 1 / 2 ^ 52 : ℚ) < 0 then F64.nan
    else round64 (Real.sqrt (((1 - 1 / 2 ^ 52 : ℚ)) : ℝ))) = _
  rw [if_neg (by norm_num),
    round64_of_roundFin_lt (by rw [hv, abs_of_nonneg (by norm_num)]; norm_num), hv]

/-- The sum of 1 and the double below 1 is a tie, which goes to the even neighbour 2. -/
theorem round64_tie_two : round64 ((1 : ℚ) - 1 / 2 ^ 53 + 1) = F64.fin 2 := by
  have h := roundFin_eq_of_tie_odd (x := (1 : ℚ) - 1 / 2 ^ 53 + 1) (e := 0)
    (n := 2 ^ (53 : ℕ) - 1) (by norm_num) (by norm_num)
    (Or.inr (by rw [abs_of_nonneg (by norm_num)]; norm_num))
    (by rw [abs_of_nonneg (by norm_num)]; norm_num)
    (by norm_num) (by norm_num)
  have hv : roundFin ((1 : ℚ) - 1 / 2 ^ 53 + 1) = 2 := by
    rw [h]; norm_num
  rw [round64_of_roundFin_lt (by rw [hv]; norm_num), hv]

theorem distToPresence64_tie : distToPresence64 tiePatient tieStats = F64.fin (1 - 1 / 2 ^ 53) := by
  have hv : encode tiePatient =
      ⟨some 1, some 150, some 280, some 120, some 4, some 1, some 1, some 1⟩ := by decide
  rw [distToPresence64, hv]
  show F64.sqrt (sumSquares64 _
    ⟨some (1 / 2 ^ 53), some 150, some 280, some 120, some 4, some 1, some 1, some 1⟩) = _
  rw [sumSquares64_of_age (s := 1 - 1 / 2 ^ 52) (by
    rw [F64.fin_sub_fin, round64_pred_one, F64.pow2_fin, round64_sq_pred_one]), sqrt64_pred]

theorem distToAbsence64_tie : distToAbsence64 tiePatient tieStats = F64.fin 1 := by
  have hv : encode tiePatient =
      ⟨some 1, some 150, some 280, some 120, some 4, some 1, some 1, some 1⟩ := by decide
  rw [distToAbsence64, hv]
  show F64.sqrt (sumSquares64 _
    ⟨some 0, some 150, some 280, some 120, some 4, some 1, some 1, some 1⟩) = _
  rw [sumSquares64_of_age (s := 1) (by
    rw [F64.fin_sub_fin, sub_zero, round64_one, F64.pow2_fin, one_mul, round64_one]),
    F64.sqrt_one]

/-- C9, counterexample. The patient aged 1 against profiles that differ from
its encoded vector in the age only, `2 ^ (-53)` in the presence profile and 0
in the absence profile (all doubles): the computed distance to the presence
profile, `1 - 2 ^ (-53)`, is strictly smaller than the computed distance to the
absence profile, 1, their sum is a tie that rounds to 2, and the score is
exactly 0.5, not greater than 0.5. -/
theorem closer_to_presence_half_counterexample :
    tieStats.presenceAvg.Finite ∧ tieStats.absenceAvg.Finite ∧ tiePatient.Numeric ∧
    Representable (1 / 2 ^ 53) ∧
    distToPresence64 tiePatient tieStats = F64.fin (1 - 1 / 2 ^ 53) ∧
    distToAbsence64 tiePatient tieStats = F64.fin 1 ∧
    ((1 : ℚ) - 1 / 2 ^ 53 < 1) ∧
    riskScore64 tiePatient tieStats = F64.fin 0.5 := by
  refine ⟨by decide, by decide, by decide, ⟨1, -53, by norm_num, by norm_num, by norm_num⟩,
    distToPresence64_tie, distToAbsence64_tie, by norm_num, ?_⟩
  have ht : totalDist64 tiePatient tieStats = F64.fin 2 := by
    rw [totalDist64, distToPresence64_tie, distToAbsence64_tie, F64.fin_add_fin, round64_tie_two]
  rw [riskScore64, ht, distToAbsence64_tie, if_neg (by norm_num),
    F64.fin_div_fin 1 (by norm_num), round64_of_representable representable_half
      (by rw [abs_of_nonneg (by norm_num)]; norm_num)]
  norm_num

/-- A difference of at most `2 ^ (-600)` has a square that underflows to zero. -/
theorem F64.pow2_round64_eq_zero {q : ℚ} (hrep : Representable q) (h₀ : 0 ≤ q)
    (h : q ≤ 1 / 2 ^ 600) : (round64 q).pow2 = F64.fin 0 := by
  rw [round64_of_representable hrep
    (by rw [abs_of_nonneg h₀]; exact lt_of_le_of_lt h (by norm_num)), F64.pow2_fin]
  have hsq : q * q < (2 : ℚ) ^ (-1075 : ℤ) := by
    have h1 : q * q ≤ 1 / 2 ^ 600 * (1 / 2 ^ 600) := mul_le_mul h h h₀ (by positivity)
    refine lt_of_le_of_lt h1 ?_
    rw [show (-1075 : ℤ) = -((1075 : ℕ) : ℤ) by norm_num, zpow_neg, zpow_natCast]
    norm_num
  have hz := roundFin_eq_zero_of_lt (mul_self_nonneg q) hsq
  rw [round64_of_roundFin_lt (by rw [hz]; norm_num), hz]

theorem distToPresence64_tiny : distToPresence64 tinyAgePatient tinyAgeStats = F64.fin 0 := by
  have hv : encode tinyAgePatient =
      ⟨some (1 / 2 ^ 600), some 150, some 280, some 120, some 4, some 1, some 1, some 1⟩ := by
    simp [encode, tinyAgePatient, cpCode]
  rw [distToPresence64, hv]
  show F64.sqrt (sumSquares64 _
    ⟨some 0, some 150, some 280, some 120, some 4, some 1, some 1, some 1⟩) = _
  rw [sumSquares64_of_age (s := 0) (by
    rw [F64.fin_sub_fin, sub_zero]
    exact F64.pow2_round64_eq_zero ⟨1, -600, by norm_num, by norm_num, by norm_num⟩
      (by norm_num) le_rfl), F64.sqrt_zero]

theorem distToAbsence64_tiny : distToAbsence64 tinyAgePatient tinyAgeStats = F64.fin 0 := by
  have hv : encode tinyAgePatient =
      ⟨some (1 / 2 ^ 600), some 150, some 280, some 120, some 4, some 1, some 1, some 1⟩ := by
    simp [encode, tinyAgePatient, cpCode]
  rw [distToAbsence64, hv]
  show F64.sqrt (sumSquares64 _
    ⟨some (1 / 2 ^ 601), some 150, some 280, some 120, some 4, some 1, some 1, some 1⟩) = _
  rw [sumSquares64_of_age (s := 0) (by
    rw [F64.fin_sub_fin, show (1 : ℚ) / 2 ^ 600 - 1 / 2 ^ 601 = 1 / 2 ^ 601 by norm_num]
    exact F64.pow2_round64_eq_zero ⟨1, -601, by norm_num, by norm_num, by norm_num⟩
      (by norm_num) (by norm_num)), F64.sqrt_zero]

/-- C10, counterexample. The patient with age `2 ^ (-600)` against profiles
that differ from its encoded vector in the age only, 0 in the presence profile
and `2 ^ (-601)` in the absence profile (all doubles): both squared age
differences underflow to zero, `totalDist` is exactly zero and 0.5 is
returned, although the encoded vector equals neither profile and the two
profiles are not identical. -/
theorem totalDist_zero_underflow_counterexample :
    tinyAgeStats.presenceAvg.Finite ∧ tinyAgeStats.absenceAvg.Finite ∧
    Representable (1 / 2 ^ 600) ∧ Representable (1 / 2 ^ 601) ∧
    totalDist64 tinyAgePatient tinyAgeStats = F64.fin 0 ∧
    riskScore64 tinyAgePatient tinyAgeStats = F64.fin 0.5 ∧
    encode tinyAgePatient ≠ tinyAgeStats.presenceAvg ∧
    encode tinyAgePatient ≠ tinyAgeStats.absenceAvg ∧
    tinyAgeStats.presenceAvg ≠ tinyAgeStats.absenceAvg := by
  have ht : totalDist64 tinyAgePatient tinyAgeStats = F64.fin 0 := by
    rw [totalDist64, distToPresence64_tiny, distToAbsence64_tiny, F64.zero_add_zero]
  refine ⟨by decide, by decide, ⟨1, -600, by norm_num, by norm_num, by norm_num⟩,
    ⟨1, -601, by norm_num, by norm_num, by norm_num⟩, ht,
    by rw [riskScore64, ht, if_pos rfl], ?_, ?_, ?_⟩
  · intro h
    have := congrArg GroupProfile.age h
    simp [encode, tinyAgePatient, tinyAgeStats] at this
  · intro h
    have := congrArg GroupProfile.age h
    simp [encode, tinyAgePatient, tinyAgeStats] at this
  · intro h
    have := congrArg GroupProfile.age h
    simp only [tinyAgeStats, Option.some.injEq] at this
    norm_num at this

end HeartDisease
